import Mathlib

/-!
Verification development for the reflective dependency-injection container
(ReflectiveInjector with its inline/dynamic proto and instance strategies)
and the zone-based stability tracker (NgZone) of this repository.

The injector embedding follows the source file holding
ReflectiveProtoInjectorInlineStrategy, ReflectiveProtoInjectorDynamicStrategy,
ReflectiveProtoInjector, ReflectiveInjectorInlineStrategy,
ReflectiveInjectorDynamicStrategy and ReflectiveInjector_.
Tokens are represented by their registry key ids (the key registry assigns a
stable Nat id per token; keys compare by id in the source). JavaScript object
identity of instantiated objects is represented by an allocation counter
threaded through the state: each factory invocation yields a value tagged with
a fresh allocation id, so reference equality of results is equality of tags.
Factories themselves are opaque: a factory is a Nat code, and invoking it
builds the value Val.obj code args alloc.

The mutually recursive resolution procedures of ReflectiveInjector_ are
embedded as one step function over an explicit call datatype, structurally
recursive on a fuel parameter, so that every run is a total computation and
concrete runs evaluate by rfl. Fuel exhaustion is a distinguished error that
never occurs at the canonical fuel budget in any theorem below.
-/

namespace CoreDI

/-- Key ids as produced by the process-wide key registry (reflective_key):
each distinct token has a stable Nat id and keys are compared by id. -/
abbrev KeyId := Nat

/-- Key id of the well-known Injector self token (INJECTOR_KEY in the source,
obtained from the key registry before any scenario keys; we reserve id 0 and
use ids from 1 upward for scenario tokens). -/
def INJECTOR_KEY_ID : KeyId := 0

/-- Threshold for the dynamic version (_MAX_CONSTRUCTION_COUNTER in the source). -/
def MAX_CONSTRUCTION_COUNTER : Nat := 10

/-- ReflectiveDependency: key plus the optional flag and the visibility
markers. lowerBoundVisibility instanceof SkipSelf is the skipSelf flag,
upperBoundVisibility instanceof Self is the selfVis flag. -/
structure ReflectiveDependency where
  keyId : KeyId
  optional : Bool
  skipSelf : Bool
  selfVis : Bool
deriving DecidableEq, Repr

/-- ResolvedReflectiveFactory: an opaque factory code plus its dependency list. -/
structure ResolvedReflectiveFactory where
  factory : Nat
  dependencies : List ReflectiveDependency
deriving DecidableEq, Repr

/-- ResolvedReflectiveProvider: key, resolved factories, multi flag. -/
structure ResolvedReflectiveProvider where
  keyId : KeyId
  resolvedFactories : List ResolvedReflectiveFactory
  multiProvider : Bool
deriving DecidableEq, Repr

/-- Runtime values. Val.undef is the UNDEFINED sentinel object the strategies
use for empty cache slots; Val.null is JavaScript null; Val.injectorSelf pos is
the injector instance at chain position pos (returned for the Injector self
token); Val.obj is a factory-built object with its fresh allocation id;
Val.arr is the array built for a multi provider. -/
inductive Val where
  | null
  | undef
  | injectorSelf (pos : Nat)
  | obj (factory : Nat) (args : List Val) (alloc : Nat)
  | arr (elems : List Val)

/-- Errors. Payload structure is modelled from the spec's error taxonomy
(section 7), since reflective_errors is not among the source files: the
no-provider error carries the accumulated chain of requesting keys (addKey
appends), the cyclic-dependency error carries the key that triggered the
counter overflow, the instantiation error wraps the original error and
accumulates keys, the out-of-bounds error carries the offending index, and
tooManyDeps is the plain Error thrown by the default branch of _instantiate.
fuelOut is the interpreter's fuel-exhaustion marker (no source counterpart);
brokenWorld marks states unreachable from well-formed injectors (where the
JavaScript would dereference null). -/
inductive DIError where
  | noProvider (keys : List KeyId)
  | cyclicDependency (keyId : KeyId)
  | outOfBounds (index : Int)
  | tooManyDeps (keyId : KeyId)
  | instantiationErr (original : DIError) (keys : List KeyId)
  | fuelOut
  | brokenWorld
deriving DecidableEq, Repr

/-- AddKey as applied by the catch block in _instantiate: only
AbstractProviderError (hence NoProviderError) and InstantiationError
accumulate the requesting key; other errors pass through unchanged. -/
def DIError.addKey (e : DIError) (k : KeyId) : DIError :=
  match e with
  | .noProvider ks => .noProvider (ks ++ [k])
  | .instantiationErr orig ks => .instantiationErr orig (ks ++ [k])
  | e => e

/-- THROW_IF_NOT_FOUND channel: none is the throw sentinel, some v is an
explicit not-found value (null for optional dependencies). -/
abbrev NotFoundValue := Option Val

/-- ThrowOrNull from the source: return the not-found value unless it is the
throw sentinel, in which case raise NoProviderError for the key. -/
def throwOrNull (key : KeyId) (nfv : NotFoundValue) : Except DIError Val :=
  match nfv with
  | some v => .ok v
  | none => .error (.noProvider [key])

/-- ReflectiveProtoInjectorInlineStrategy: ten fixed provider slots and ten
fixed key-id slots, null (none) when fewer than ten providers were supplied. -/
structure ProtoInline where
  provider0 : Option ResolvedReflectiveProvider
  provider1 : Option ResolvedReflectiveProvider
  provider2 : Option ResolvedReflectiveProvider
  provider3 : Option ResolvedReflectiveProvider
  provider4 : Option ResolvedReflectiveProvider
  provider5 : Option ResolvedReflectiveProvider
  provider6 : Option ResolvedReflectiveProvider
  provider7 : Option ResolvedReflectiveProvider
  provider8 : Option ResolvedReflectiveProvider
  provider9 : Option ResolvedReflectiveProvider
  keyId0 : Option KeyId
  keyId1 : Option KeyId
  keyId2 : Option KeyId
  keyId3 : Option KeyId
  keyId4 : Option KeyId
  keyId5 : Option KeyId
  keyId6 : Option KeyId
  keyId7 : Option KeyId
  keyId8 : Option KeyId
  keyId9 : Option KeyId
deriving DecidableEq, Repr

/-- Constructor of the inline proto strategy: slot i is filled iff the
provider list is longer than i (the sequential length checks of the source),
and the key-id slot is the corresponding provider's key id. -/
def ProtoInline.ofList (providers : List ResolvedReflectiveProvider) : ProtoInline where
  provider0 := providers.get? 0
  provider1 := providers.get? 1
  provider2 := providers.get? 2
  provider3 := providers.get? 3
  provider4 := providers.get? 4
  provider5 := providers.get? 5
  provider6 := providers.get? 6
  provider7 := providers.get? 7
  provider8 := providers.get? 8
  provider9 := providers.get? 9
  keyId0 := (providers.get? 0).map (fun p => p.keyId)
  keyId1 := (providers.get? 1).map (fun p => p.keyId)
  keyId2 := (providers.get? 2).map (fun p => p.keyId)
  keyId3 := (providers.get? 3).map (fun p => p.keyId)
  keyId4 := (providers.get? 4).map (fun p => p.keyId)
  keyId5 := (providers.get? 5).map (fun p => p.keyId)
  keyId6 := (providers.get? 6).map (fun p => p.keyId)
  keyId7 := (providers.get? 7).map (fun p => p.keyId)
  keyId8 := (providers.get? 8).map (fun p => p.keyId)
  keyId9 := (providers.get? 9).map (fun p => p.keyId)

/-- View of the ten key-id slots in slot order, used to express the
sequential key-id comparison chain of getObjByKeyId. -/
def ProtoInline.keyIdsList (p : ProtoInline) : List (Option KeyId) :=
  [p.keyId0, p.keyId1, p.keyId2, p.keyId3, p.keyId4, p.keyId5, p.keyId6, p.keyId7, p.keyId8, p.keyId9]

/-- View of the ten provider slots in slot order. -/
def ProtoInline.providersList (p : ProtoInline) : List (Option ResolvedReflectiveProvider) :=
  [p.provider0, p.provider1, p.provider2, p.provider3, p.provider4, p.provider5, p.provider6, p.provider7, p.provider8, p.provider9]

/-- GetProviderAtIndex of the inline proto strategy: the literal index
comparison chain of the source. Indices are JavaScript numbers, so the
argument is an Int and every index outside 0..9 falls through to the
OutOfBoundsError throw; indices between the provider count and 9 return the
null slot content. -/
def ProtoInline.getProviderAtIndex (p : ProtoInline) (index : Int) : Except DIError (Option ResolvedReflectiveProvider) :=
  if index = 0 then .ok p.provider0
  else if index = 1 then .ok p.provider1
  else if index = 2 then .ok p.provider2
  else if index = 3 then .ok p.provider3
  else if index = 4 then .ok p.provider4
  else if index = 5 then .ok p.provider5
  else if index = 6 then .ok p.provider6
  else if index = 7 then .ok p.provider7
  else if index = 8 then .ok p.provider8
  else if index = 9 then .ok p.provider9
  else .error (.outOfBounds index)

/-- ReflectiveProtoInjectorDynamicStrategy: the providers and their key ids in
parallel lists. -/
structure ProtoDynamic where
  providers : List ResolvedReflectiveProvider
  keyIds : List KeyId
deriving DecidableEq, Repr

/-- Constructor of the dynamic proto strategy. -/
def ProtoDynamic.ofList (providers : List ResolvedReflectiveProvider) : ProtoDynamic where
  providers := providers
  keyIds := providers.map (fun p => p.keyId)

/-- GetProviderAtIndex of the dynamic proto strategy: explicit bounds check,
then the indexed provider. -/
def ProtoDynamic.getProviderAtIndex (p : ProtoDynamic) (index : Int) : Except DIError (Option ResolvedReflectiveProvider) :=
  if index < 0 ∨ (p.providers.length : Int) ≤ index then .error (.outOfBounds index)
  else .ok (p.providers.get? index.toNat)

/-- ReflectiveProtoInjector strategy choice: dynamic for more than
_MAX_CONSTRUCTION_COUNTER providers, inline otherwise. -/
inductive ProtoStrategy where
  | inline (p : ProtoInline)
  | dyn (p : ProtoDynamic)
deriving DecidableEq, Repr

/-- ReflectiveProtoInjector constructor. -/
def ProtoStrategy.ofList (providers : List ResolvedReflectiveProvider) : ProtoStrategy :=
  if providers.length > MAX_CONSTRUCTION_COUNTER then .dyn (ProtoDynamic.ofList providers)
  else .inline (ProtoInline.ofList providers)

/-- ReflectiveProtoInjector.getProviderAtIndex delegates to the strategy. -/
def ProtoStrategy.getProviderAtIndex (s : ProtoStrategy) (index : Int) : Except DIError (Option ResolvedReflectiveProvider) :=
  match s with
  | .inline p => p.getProviderAtIndex index
  | .dyn p => p.getProviderAtIndex index

/-- Cache slots of ReflectiveInjectorInlineStrategy: ten fields initialised to
the UNDEFINED sentinel. -/
structure InlineObjs where
  obj0 : Val
  obj1 : Val
  obj2 : Val
  obj3 : Val
  obj4 : Val
  obj5 : Val
  obj6 : Val
  obj7 : Val
  obj8 : Val
  obj9 : Val

/-- All ten cache slots undefined, as in the constructor. -/
def InlineObjs.empty : InlineObjs :=
  ⟨.undef, .undef, .undef, .undef, .undef, .undef, .undef, .undef, .undef, .undef⟩

/-- Read cache slot i (the index dispatch mirrors getObjAtIndex's comparison
chain; positions past 9 cannot be reached from the ten-slot key search). -/
def InlineObjs.getAt (o : InlineObjs) (i : Nat) : Val :=
  match i with
  | 0 => o.obj0
  | 1 => o.obj1
  | 2 => o.obj2
  | 3 => o.obj3
  | 4 => o.obj4
  | 5 => o.obj5
  | 6 => o.obj6
  | 7 => o.obj7
  | 8 => o.obj8
  | 9 => o.obj9
  | _ => (.undef)

/-- Write cache slot i. -/
def InlineObjs.setAt (o : InlineObjs) (i : Nat) (v : Val) : InlineObjs :=
  match i with
  | 0 => { o with obj0 := v }
  | 1 => { o with obj1 := v }
  | 2 => { o with obj2 := v }
  | 3 => { o with obj3 := v }
  | 4 => { o with obj4 := v }
  | 5 => { o with obj5 := v }
  | 6 => { o with obj6 := v }
  | 7 => { o with obj7 := v }
  | 8 => { o with obj8 := v }
  | 9 => { o with obj9 := v }
  | _ => o

/-- View of the ten cache slots in slot order. -/
def InlineObjs.toList (o : InlineObjs) : List Val :=
  [o.obj0, o.obj1, o.obj2, o.obj3, o.obj4, o.obj5, o.obj6, o.obj7, o.obj8, o.obj9]

/-- Per-injector strategy state: the proto strategy plus this injector's
cache. The dynamic cache is an array of UNDEFINED-initialised slots of the
provider count's length. -/
inductive InjStrategy where
  | inline (proto : ProtoInline) (objs : InlineObjs)
  | dyn (proto : ProtoDynamic) (objs : List Val)

/-- GetMaxNumberOfObjects: the fixed inline capacity, or the dynamic object
array's length. -/
def InjStrategy.getMaxNumberOfObjects : InjStrategy → Nat
  | .inline _ _ => MAX_CONSTRUCTION_COUNTER
  | .dyn _ objs => objs.length

/-- Index of the first element satisfying a predicate (the sequential scan
both getObjByKeyId variants perform). -/
def findKeyIdx {α : Type} (p : α → Bool) : List α → Option Nat
  | [] => none
  | x :: xs => if p x then some 0 else (findKeyIdx p xs).map (fun i => i + 1)

/-- Slot search of getObjByKeyId: the inline strategy compares the query key
id against keyId0 .. keyId9 in order (null slots never match a Nat key); the
dynamic strategy scans its keyIds array in order. The result is the first
matching slot index. Iterations before the match only test and have no
effect, so the scan is expressed as a pure index search. -/
def InjStrategy.searchKeyId (s : InjStrategy) (key : KeyId) : Option Nat :=
  match s with
  | .inline p _ => findKeyIdx (fun k => k == some key) p.keyIdsList
  | .dyn p _ => findKeyIdx (fun k => k == key) p.keyIds

/-- Read the cache slot at index i. -/
def InjStrategy.readObj (s : InjStrategy) (i : Nat) : Val :=
  match s with
  | .inline _ o => o.getAt i
  | .dyn _ objs => objs.getD i Val.undef

/-- Write the cache slot at index i. -/
def InjStrategy.writeObj (s : InjStrategy) (i : Nat) (v : Val) : InjStrategy :=
  match s with
  | .inline p o => .inline p (o.setAt i v)
  | .dyn p objs => .dyn p (objs.set i v)

/-- The provider stored at slot index i. -/
def InjStrategy.providerAtSlot (s : InjStrategy) (i : Nat) : Option ResolvedReflectiveProvider :=
  match s with
  | .inline p _ => (p.providersList.get? i).join
  | .dyn p _ => p.providers.get? i

/-- One live injector: its strategy state and its construction counter
(initialised to 0 in the ReflectiveInjector_ constructor). -/
structure InjState where
  strategy : InjStrategy
  constructionCounter : Nat

/-- ReflectiveInjector_ constructor composed with
ReflectiveProtoInjector.fromResolvedProviders and createInjectorStrategy:
choose the strategy by provider count, empty cache, counter 0. -/
def InjState.fromResolvedProviders (providers : List ResolvedReflectiveProvider) : InjState :=
  match ProtoStrategy.ofList providers with
  | .inline p => { strategy := .inline p InlineObjs.empty, constructionCounter := 0 }
  | .dyn p => { strategy := .dyn p (List.replicate p.providers.length Val.undef), constructionCounter := 0 }

/-- The whole mutable state: the injector chain (position 0 is the injector a
request starts at, position i+1 is the parent of position i, the last
injector's parent is null) plus the allocation counter for object identity. -/
structure World where
  injs : List InjState
  nextAlloc : Nat

/-- Injector at a chain position. -/
def World.inj? (w : World) (pos : Nat) : Option InjState := w.injs.get? pos

/-- Replace the injector at a chain position. -/
def World.modifyInj (w : World) (pos : Nat) (f : InjState → InjState) : World :=
  match w.injs.get? pos with
  | some s => { w with injs := w.injs.set pos (f s) }
  | none => w

/-- Post-increment of the construction counter in _new. -/
def World.bumpCounter (w : World) (pos : Nat) : World :=
  w.modifyInj pos (fun s => { s with constructionCounter := s.constructionCounter + 1 })

/-- Construction counter of the injector at a position (0 if out of range). -/
def World.counterAt (w : World) (pos : Nat) : Nat :=
  match w.injs.get? pos with
  | some s => s.constructionCounter
  | none => 0

/-- ResetConstructionCounter of the instance strategies: sets the injector's
construction counter to 0. Both strategies define it; no caller in the source
invokes it. -/
def World.resetConstructionCounter (w : World) (pos : Nat) : World :=
  w.modifyInj pos (fun s => { s with constructionCounter := 0 })

/-- A world made of a chain of freshly-constructed injectors, position 0
being the child the requests start at. -/
def World.ofChain (chains : List (List ResolvedReflectiveProvider)) : World :=
  { injs := chains.map InjState.fromResolvedProviders, nextAlloc := 0 }

/-- The immutable proto part of a strategy state (resolution never writes
it; only cache slots and counters change). -/
def InjStrategy.protoOf : InjStrategy → ProtoStrategy
  | .inline p _ => .inline p
  | .dyn p _ => .dyn p

/-- Number of cache slots of a strategy state (ten inline slots, or the
dynamic object array's length). -/
def InjStrategy.objsLen : InjStrategy → Nat
  | .inline _ _ => MAX_CONSTRUCTION_COUNTER
  | .dyn _ objs => objs.length

/-- Proto strategy of the injector at a chain position. -/
def World.protoAt (w : World) (pos : Nat) : Option ProtoStrategy :=
  (w.injs.get? pos).map (fun s => s.strategy.protoOf)

/-- Cache slot count of the injector at a chain position. -/
def World.objsLenAt (w : World) (pos : Nat) : Option Nat :=
  (w.injs.get? pos).map (fun s => s.strategy.objsLen)

/-- Frame relation between a state and any state resolution can evolve it
into: the chain shape and every proto are untouched, cache slot counts are
untouched, construction counters never decrease, and the allocation counter
never decreases. -/
def World.Evol (w w' : World) : Prop :=
  (∀ pos, w'.protoAt pos = w.protoAt pos) ∧
  (∀ pos, w'.objsLenAt pos = w.objsLenAt pos) ∧
  (∀ pos, w.counterAt pos ≤ w'.counterAt pos) ∧
  w.nextAlloc ≤ w'.nextAlloc

/-- Whether a key id occurs among the strategy's stored key ids (the
provider-list membership test getObjByKeyId's scan realises). -/
def InjStrategy.hasKeyB (s : InjStrategy) (k : KeyId) : Bool :=
  (s.searchKeyId k).isSome

/-- Whether a key is found in some injector of the chain; the Injector self
token counts as found everywhere since _getByKey serves it directly. -/
def World.keyFoundB (w : World) (k : KeyId) : Bool :=
  k == INJECTOR_KEY_ID || w.injs.any (fun s => s.strategy.hasKeyB k)

/-- Cache content of the first slot matching a key (none when no slot
matches). -/
def InjStrategy.cachedAt (s : InjStrategy) (k : KeyId) : Option Val :=
  (s.searchKeyId k).map (fun i => s.readObj i)

/-- Slot search expressed on the immutable proto part alone: cache writes
never change the search result. -/
def ProtoStrategy.searchKeyId (ps : ProtoStrategy) (key : KeyId) : Option Nat :=
  match ps with
  | .inline p => findKeyIdx (fun k => k == some key) p.keyIdsList
  | .dyn p => findKeyIdx (fun k => k == key) p.keyIds

/-- Whether the injector at a chain position stores the key in its provider
list. -/
def World.hasKeyAtB (w : World) (pos : Nat) (k : KeyId) : Bool :=
  match w.injs.get? pos with
  | some inj => inj.strategy.hasKeyB k
  | none => false

/-- Whether the head injector binds the key through a non-multi provider. -/
def World.boundNonMultiB (w : World) (k : KeyId) : Bool :=
  match w.injs.get? 0 with
  | some inj =>
    match inj.strategy.searchKeyId k with
    | some i =>
      match inj.strategy.providerAtSlot i with
      | some p => !p.multiProvider
      | none => false
    | none => false
  | none => false

/-- Well-formedness of dynamic strategy states: the object array is at least
as long as the key-id array (the source allocates them with equal length).
Inline states are always well-formed. -/
def InjStrategy.slotsOkB : InjStrategy → Bool
  | .inline _ _ => true
  | .dyn p objs => p.keyIds.length ≤ objs.length

/-- Well-formedness of every injector of the chain. -/
def World.slotsOkB (w : World) : Bool :=
  w.injs.all (fun inj => inj.strategy.slotsOkB)

/-- The mutually recursive resolution procedures of ReflectiveInjector_, as
an explicit call datatype: getByKey is _getByKey, getByKeySelf is
_getByKeySelf, getByKeyDefault is _getByKeyDefault (chainWalk is its while
loop over the parent chain), getObjByKeyId is the strategy's getObjByKeyId,
newCall is _new, instantiateProvider is _instantiateProvider (multiLoop its
loop over the resolved factories), instantiate is _instantiate (depLoop its
sequential resolution of the first twenty dependencies), getByDep is
_getByReflectiveDependency. -/
inductive Call where
  | getByKey (pos : Nat) (key : KeyId) (skipSelf selfVis : Bool) (nfv : NotFoundValue)
  | getByKeySelf (pos : Nat) (key : KeyId) (nfv : NotFoundValue)
  | getByKeyDefault (pos : Nat) (key : KeyId) (nfv : NotFoundValue) (skipSelf : Bool)
  | chainWalk (pos : Nat) (key : KeyId) (nfv : NotFoundValue)
  | getObjByKeyId (pos : Nat) (key : KeyId)
  | newCall (pos : Nat) (provider : ResolvedReflectiveProvider)
  | instantiateProvider (pos : Nat) (provider : ResolvedReflectiveProvider)
  | multiLoop (pos : Nat) (provider : ResolvedReflectiveProvider) (rfs : List ResolvedReflectiveFactory) (acc : List Val)
  | instantiate (pos : Nat) (provider : ResolvedReflectiveProvider) (rf : ResolvedReflectiveFactory)
  | depLoop (pos : Nat) (deps : List ReflectiveDependency) (acc : List Val)
  | getByDep (pos : Nat) (dep : ReflectiveDependency)

/-- Result of a resolution step: the value or error, and the updated state.
State updates persist across thrown errors exactly as in the source (counter
increments survive, cache assignments do not happen on the error path). -/
abbrev StepRes := Except DIError Val × World

/-- The interpreter. Each case is the body of the corresponding source
procedure; fuel decreases by one at every internal call. depLoop returns its
collected dependency values boxed as Val.arr (an interpreter encoding, not a
source value: instantiate immediately unboxes it). -/
def step : Nat → World → Call → StepRes
  | 0, w, _ => (.error .fuelOut, w)
  | fuel+1, w, c =>
    match c with
    | .getByKey pos key skipSelf selfVis nfv =>
      if key == INJECTOR_KEY_ID then (.ok (.injectorSelf pos), w)
      else if selfVis then step fuel w (.getByKeySelf pos key nfv)
      else step fuel w (.getByKeyDefault pos key nfv skipSelf)
    | .getByKeySelf pos key nfv =>
      match step fuel w (.getObjByKeyId pos key) with
      | (.ok Val.undef, w1) => (throwOrNull key nfv, w1)
      | (.ok v, w1) => (.ok v, w1)
      | (.error e, w1) => (.error e, w1)
    | .getByKeyDefault pos key nfv skipSelf =>
      step fuel w (.chainWalk (if skipSelf then pos + 1 else pos) key nfv)
    | .chainWalk pos key nfv =>
      if pos < w.injs.length then
        match step fuel w (.getObjByKeyId pos key) with
        | (.ok Val.undef, w1) => step fuel w1 (.chainWalk (pos + 1) key nfv)
        | (.ok v, w1) => (.ok v, w1)
        | (.error e, w1) => (.error e, w1)
      else
        (throwOrNull key nfv, w)
    | .getObjByKeyId pos key =>
      match w.inj? pos with
      | none => (.error .brokenWorld, w)
      | some inj =>
        match inj.strategy.searchKeyId key with
        | none => (.ok Val.undef, w)
        | some i =>
          match inj.strategy.readObj i with
          | Val.undef =>
            match inj.strategy.providerAtSlot i with
            | none => (.error .brokenWorld, w)
            | some p =>
              match step fuel w (.newCall pos p) with
              | (.ok v, w1) =>
                (.ok v, w1.modifyInj pos (fun s => { s with strategy := s.strategy.writeObj i v }))
              | (.error e, w1) => (.error e, w1)
          | v => (.ok v, w)
    | .newCall pos p =>
      match w.inj? pos with
      | none => (.error .brokenWorld, w)
      | some inj =>
        let cnt := inj.constructionCounter
        let w1 := w.bumpCounter pos
        if cnt > inj.strategy.getMaxNumberOfObjects then
          (.error (.cyclicDependency p.keyId), w1)
        else
          step fuel w1 (.instantiateProvider pos p)
    | .instantiateProvider pos p =>
      if p.multiProvider then
        step fuel w (.multiLoop pos p p.resolvedFactories [])
      else
        match p.resolvedFactories.get? 0 with
        | none => (.error .brokenWorld, w)
        | some rf => step fuel w (.instantiate pos p rf)
    | .multiLoop pos p rfs acc =>
      match rfs with
      | [] => (.ok (.arr acc.reverse), w)
      | rf :: rest =>
        match step fuel w (.instantiate pos p rf) with
        | (.ok v, w1) => step fuel w1 (.multiLoop pos p rest (v :: acc))
        | (.error e, w1) => (.error e, w1)
    | .instantiate pos p rf =>
      match step fuel w (.depLoop pos (rf.dependencies.take 20) []) with
      | (.error e, w1) => (.error (e.addKey p.keyId), w1)
      | (.ok (Val.arr args), w1) =>
        if rf.dependencies.length > 20 then
          (.error (.instantiationErr (.tooManyDeps p.keyId) [p.keyId]), w1)
        else
          (.ok (.obj rf.factory args w1.nextAlloc), { w1 with nextAlloc := w1.nextAlloc + 1 })
      | (.ok _, w1) => (.error .brokenWorld, w1)
    | .depLoop pos deps acc =>
      match deps with
      | [] => (.ok (.arr acc.reverse), w)
      | d :: rest =>
        match step fuel w (.getByDep pos d) with
        | (.ok v, w1) => step fuel w1 (.depLoop pos rest (v :: acc))
        | (.error e, w1) => (.error e, w1)
    | .getByDep pos d =>
      step fuel w (.getByKey pos d.keyId d.skipSelf d.selfVis (if d.optional then some Val.null else none))

/-- Total capacity of the chain, used only to size the canonical fuel budget. -/
def World.totalCap (w : World) : Nat :=
  w.injs.foldr (fun s acc => s.strategy.getMaxNumberOfObjects + acc) 0

/-- Canonical fuel budget: generous enough for every run below (the
construction counter bounds the number of _new calls per injector by its
capacity plus two, and every other procedure is structurally bounded). -/
def World.fuelBudget (w : World) : Nat :=
  1000 + 500 * w.injs.length + 500 * w.totalCap

/-- Resolution entry point of an injector at a chain position: _getByKey with
the key, no visibility modifiers and the throw sentinel, at the canonical
fuel budget. -/
def getFromPos (w : World) (pos : Nat) (key : KeyId) : StepRes :=
  step w.fuelBudget w (.getByKey pos key false false none)

/-- ReflectiveInjector_.get of the chain's head injector (token already
translated to its key id, notFoundValue defaulted to the throw sentinel). -/
def ReflectiveInjector.get (w : World) (key : KeyId) : StepRes :=
  getFromPos w 0 key

end CoreDI

/-!
The stability tracker (NgZone). The tracker's own state-machine procedures
(onEnter, onLeave, checkStable, setHasMicrotask, setHasMacrotask,
triggerError, the onHandleError hook body) are embedded from the source.
Notifications are modelled as an append-only event log: the tracker scenarios
verified here have no subscribers that schedule further work, so an emission
is exactly a log append. The zone boundary itself (Zone.run, Zone.runGuarded)
is an external host facility, not part of the source files.
-/

namespace NgZoneModel

/-- Events emitted on the four notification streams. -/
inductive ZEvent where
  | unstable
  | microtaskEmpty
  | stable
  | errorEvent (code : Nat)
deriving DecidableEq, Repr

/-- NgZone observable state: the pending-task flags, the stable flag, the
nesting depth (a JavaScript number, hence Int) and the emission log. -/
structure ZState where
  hasPendingMicrotasks : Bool
  hasPendingMacrotasks : Bool
  isStable : Bool
  nesting : Int
  log : List ZEvent
deriving DecidableEq, Repr

/-- State after the NgZone constructor: stable, nesting 0, nothing pending. -/
def initialZ : ZState :=
  { hasPendingMicrotasks := false
    hasPendingMacrotasks := false
    isStable := true
    nesting := 0
    log := [] }

/-- Emit on a notification stream: append to the log. -/
def emit (z : ZState) (e : ZEvent) : ZState := { z with log := z.log ++ [e] }

/-- OnEnter: increment nesting; on a stable-to-unstable transition clear the
stable flag and emit onUnstable (at most once per transition). -/
def onEnter (z : ZState) : ZState :=
  let z1 := { z with nesting := z.nesting + 1 }
  if z1.isStable then emit { z1 with isStable := false } .unstable else z1

/-- CheckStable: when the last nested call has exited, no microtasks are
pending and the state is unstable, emit onMicrotaskEmpty inside a nesting
guard, then (the finally block) if still no microtasks are pending emit
onStable outside the tracked zone and flip to stable. -/
def checkStable (z : ZState) : ZState :=
  if z.nesting == 0 && !z.hasPendingMicrotasks && !z.isStable then
    let z1 := emit { z with nesting := z.nesting + 1 } .microtaskEmpty
    let z2 := { z1 with nesting := z1.nesting - 1 }
    if !z2.hasPendingMicrotasks then { (emit z2 .stable) with isStable := true }
    else z2
  else z

/-- OnLeave: decrement nesting, then checkStable. -/
def onLeave (z : ZState) : ZState :=
  checkStable { z with nesting := z.nesting - 1 }

/-- SetHasMicrotask: record the new microtask pendingness, then checkStable. -/
def setHasMicrotask (z : ZState) (pending : Bool) : ZState :=
  checkStable { z with hasPendingMicrotasks := pending }

/-- SetHasMacrotask: record the new macrotask pendingness only. -/
def setHasMacrotask (z : ZState) (pending : Bool) : ZState :=
  { z with hasPendingMacrotasks := pending }

/-- TriggerError: emit on the onError stream. -/
def triggerError (z : ZState) (code : Nat) : ZState := emit z (.errorEvent code)

/-- OnHandleError hook body of forkInnerZoneWithAngularBehavior: forward the
error to the onError stream; the hook returns false, so the boundary treats
the error as handled and suppresses further propagation. -/
def handleZoneError (z : ZState) (code : Nat) : ZState := triggerError z code

/-- Modelled from the spec: the run entry point of the external
task-interception boundary (Zone.run composed with the onInvoke hook of
forkInnerZoneWithAngularBehavior). The function executes between onEnter and
onLeave (onLeave runs in a finally, so also on the error path); a synchronous
error propagates out of run and is not routed to onError. The executed
function is an application-state transformer that either returns or throws;
it schedules no tracked asynchronous work. -/
def zoneRun {α : Type} (fn : α → Except Nat α) (a : α) (z : ZState) : Except Nat α × ZState :=
  let z1 := onEnter z
  match fn a with
  | .ok b => (.ok b, onLeave z1)
  | .error e => (.error e, onLeave z1)

/-- Modelled from the spec: the runGuarded entry point of the external
boundary (Zone.runGuarded composed with the same hooks). On a synchronous
error the finally still runs onLeave, then the boundary routes the error
through the onHandleError hook, which emits it on onError and reports it
handled, so nothing propagates to the caller (the call yields no value). -/
def zoneRunGuarded {α : Type} (fn : α → Except Nat α) (a : α) (z : ZState) : Option α × ZState :=
  let z1 := onEnter z
  match fn a with
  | .ok b => (some b, onLeave z1)
  | .error e => (none, handleZoneError (onLeave z1) e)

/-- Error codes present in the emission log. -/
def ZState.errorLogs (z : ZState) : List Nat :=
  z.log.filterMap (fun ev => match ev with | .errorEvent c => some c | _ => none)

end NgZoneModel

/-!
Concrete resolved providers, dependencies and worlds used by the claim
scenarios below.
-/

namespace CoreDI

/-- A plain constructor dependency on a key: not optional, no visibility
markers. -/
def simpleDep (k : KeyId) : ReflectiveDependency := ⟨k, false, false, false⟩

/-- An optional dependency on a key. -/
def optionalDep (k : KeyId) : ReflectiveDependency := ⟨k, true, false, false⟩

/-- A dependency with self-only (Self) visibility. -/
def selfOnlyDep (k : KeyId) : ReflectiveDependency := ⟨k, false, false, true⟩

/-- A non-multi provider with a zero-dependency factory (a resolved useValue
or dependency-free class provider). -/
def valueProvider (k : KeyId) (f : Nat) : ResolvedReflectiveProvider := ⟨k, [⟨f, []⟩], false⟩

/-- A non-multi provider whose factory takes one plain dependency. -/
def depProvider (k : KeyId) (f : Nat) (dk : KeyId) : ResolvedReflectiveProvider :=
  ⟨k, [⟨f, [simpleDep dk]⟩], false⟩

/-- A single injector forced onto the inline strategy for a provider list
(the choice the proto constructor makes whenever the list holds at most ten
providers). -/
def World.forcedInline (l : List ResolvedReflectiveProvider) : World :=
  { injs := [{ strategy := .inline (ProtoInline.ofList l) InlineObjs.empty, constructionCounter := 0 }]
    nextAlloc := 0 }

/-- A single injector forced onto the dynamic strategy for a provider list
(the choice the proto constructor makes for more than ten providers). -/
def World.forcedDyn (l : List ResolvedReflectiveProvider) : World :=
  { injs := [{ strategy := .dyn (ProtoDynamic.ofList l) (List.replicate l.length Val.undef), constructionCounter := 0 }]
    nextAlloc := 0 }

/-- Claim C1 scenario: one injector holding an ordinary value provider for
key 1 and a self-cyclic provider for key 2 (key 2's factory depends on
key 2). -/
def selfCycleWorld : World :=
  World.ofChain [[valueProvider 1 100, depProvider 2 200 2]]

/-- The claim C1 scenario after one failed get of the cyclic token: the
construction counter retains the twelve increments of the failed run. -/
def worldAfterCyclicGet : World := (ReflectiveInjector.get selfCycleWorld 2).2

/-- Claim C2 scenario padding: k extra independent value providers with keys
3, 4, ... so the two-provider cycle can sit in injectors of any size. -/
def padProviders (k : Nat) : List ResolvedReflectiveProvider :=
  (List.range k).map (fun i => valueProvider (3 + i) (300 + i))

/-- Claim C2 scenario providers: the two-key cycle (key 1 depends on key 2,
key 2 depends on key 1) followed by k independent pads; 2 + k providers in
total. -/
def cycleProviders (k : Nat) : List ResolvedReflectiveProvider :=
  [depProvider 1 101 2, depProvider 2 102 1] ++ padProviders k

/-- Claim C2 scenario: one injector holding the cycle providers; inline
strategy for k at most 8, dynamic beyond. -/
def cycleWorld (k : Nat) : World :=
  World.ofChain [cycleProviders k]

/-- A single parent-less injector with a given strategy state and counter,
the shape every cyclic run preserves (caches are only written on success,
and a cyclic run never succeeds, so only the counter moves). -/
def singleInjWorld (strat : InjStrategy) (c : Nat) : World :=
  { injs := [{ strategy := strat, constructionCounter := c }], nextAlloc := 0 }

/-- Claim C3 counterexample list: a three-provider dependency cycle
(1 needs 2, 2 needs 3, 3 needs 1). -/
def strategyCexList : List ResolvedReflectiveProvider :=
  [depProvider 1 101 2, depProvider 2 102 3, depProvider 3 103 1]

/-- Claim C8 counterexample list: three value providers, so the proto uses
the inline strategy with slots 3 to 9 empty. -/
def threeProviders : List ResolvedReflectiveProvider :=
  [valueProvider 1 100, valueProvider 2 200, valueProvider 3 300]

/-- Claim C9 scenario provider: a provider for key 1 whose single factory
has n dependencies, each an optional dependency on the absent key 99. -/
def manyDepsProvider (n : Nat) : ResolvedReflectiveProvider :=
  ⟨1, [⟨7, List.replicate n (optionalDep 99)⟩], false⟩

/-- Claim C9 scenario: one injector holding only the many-dependency
provider. -/
def manyDepsWorld (n : Nat) : World := World.ofChain [[manyDepsProvider n]]

/-- Claim C4 witness scenario: a child with no providers under a parent
holding a provider for key 1. -/
def parentOnlyWorld : World := World.ofChain [[], [valueProvider 1 100]]

/-- Claim C5 witness scenario: one injector holding one value provider. -/
def singleValueWorld : World := World.ofChain [[valueProvider 1 100]]

/-- Claim C5 witness scenario after its first get. -/
def singleValueAfterGet : World := (ReflectiveInjector.get singleValueWorld 1).2

/-- Claim C4 witness scenario after the child get. -/
def parentOnlyAfterGet : World := (ReflectiveInjector.get parentOnlyWorld 1).2

/-- Ten-slot cache built from a list: slot i holds the list element at i,
UNDEFINED past the end (the shape a ten-element dynamic object array has,
repackaged into the inline strategy's ten fields). -/
def InlineObjs.ofListD (os : List Val) : InlineObjs :=
  ⟨os.getD 0 .undef, os.getD 1 .undef, os.getD 2 .undef, os.getD 3 .undef, os.getD 4 .undef,
   os.getD 5 .undef, os.getD 6 .undef, os.getD 7 .undef, os.getD 8 .undef, os.getD 9 .undef⟩

/-- Strategy transport for the claim C3 comparison: repackage a
dynamic-strategy injector as the inline-strategy injector over the same
provider list and cache contents; inline injectors are left unchanged. -/
def encInj (s : InjState) : InjState :=
  match s with
  | ⟨.dyn p objs, c⟩ => ⟨.inline (ProtoInline.ofList p.providers) (InlineObjs.ofListD objs), c⟩
  | s => s

/-- Strategy transport applied to every injector of a chain. -/
def encWorld (w : World) : World :=
  { injs := w.injs.map encInj, nextAlloc := w.nextAlloc }

/-- An injector state the transport is faithful on: dynamic strategy over
exactly ten providers, ten cache slots, and the key-id array the dynamic
proto constructor builds. -/
def InjState.dyn10 (s : InjState) : Prop :=
  ∃ p objs, s.strategy = .dyn p objs ∧ p.providers.length = 10 ∧ objs.length = 10 ∧
    p.keyIds = p.providers.map (fun q => q.keyId)

/-- A chain of ten-provider dynamic injectors. -/
def World.dyn10 (w : World) : Prop := ∀ inj ∈ w.injs, inj.dyn10

/-- Ten ordinary value providers for keys 1 to 10 (the boundary size at
which the source still chooses the inline strategy). -/
def tenProviders : List ResolvedReflectiveProvider :=
  [valueProvider 1 100, valueProvider 2 200, valueProvider 3 300, valueProvider 4 400,
   valueProvider 5 500, valueProvider 6 600, valueProvider 7 700, valueProvider 8 800,
   valueProvider 9 900, valueProvider 10 1000]


end CoreDI

/-- Claim C7 witness function: always throws error code 5. -/
def ngFailingFn : Nat → Except Nat Nat := fun _ => .error 5

/-!
General lemmas about the embedding: the frame relation every resolution step
respects, and basic facts about the slot search and the cache.
-/

namespace CoreDI

theorem Evol.refl (w : World) : World.Evol w w :=
  ⟨fun _ => rfl, fun _ => rfl, fun _ => le_rfl, le_rfl⟩

theorem Evol.trans {w1 w2 w3 : World} (h12 : World.Evol w1 w2) (h23 : World.Evol w2 w3) :
    World.Evol w1 w3 := by
  obtain ⟨p12, o12, c12, a12⟩ := h12
  obtain ⟨p23, o23, c23, a23⟩ := h23
  exact ⟨fun i => (p23 i).trans (p12 i), fun i => (o23 i).trans (o12 i),
    fun i => le_trans (c12 i) (c23 i), le_trans a12 a23⟩

theorem counterAt_modifyInj (w : World) (pos : Nat) (f : InjState → InjState) (i : Nat) :
    (w.modifyInj pos f).counterAt i =
      if i = pos then ((w.injs.get? pos).map (fun s => (f s).constructionCounter)).getD (w.counterAt i)
      else w.counterAt i := by
  unfold World.modifyInj World.counterAt
  cases hg : w.injs.get? pos with
  | none => simp only [hg]; split <;> simp
  | some s =>
    have hg' : w.injs[pos]? = some s := by rw [← List.get?_eq_getElem?]; exact hg
    have hlt : pos < w.injs.length := (List.getElem?_eq_some.mp hg').1
    simp only [hg, List.get?_set_of_lt' _ _ hlt]
    by_cases h : pos = i
    · subst h; simp [hg]
    · have h' : ¬ i = pos := fun hh => h hh.symm
      simp [h, h']

theorem evol_modifyInj {w : World} {pos : Nat} {f : InjState → InjState}
    (hp : ∀ s, (f s).strategy.protoOf = s.strategy.protoOf)
    (ho : ∀ s, (f s).strategy.objsLen = s.strategy.objsLen)
    (hc : ∀ s, s.constructionCounter ≤ (f s).constructionCounter) :
    World.Evol w (w.modifyInj pos f) := by
  unfold World.modifyInj
  cases hg : w.injs.get? pos with
  | none => exact Evol.refl w
  | some s =>
    have hg' : w.injs[pos]? = some s := by rw [← List.get?_eq_getElem?]; exact hg
    have hlt : pos < w.injs.length := (List.getElem?_eq_some.mp hg').1
    refine ⟨fun i => ?_, fun i => ?_, fun i => ?_, le_rfl⟩
    · unfold World.protoAt
      simp only [List.get?_set_of_lt' _ _ hlt]
      by_cases h : pos = i
      · subst h; simp [hg, hg', hp]
      · simp [h]
    · unfold World.objsLenAt
      simp only [List.get?_set_of_lt' _ _ hlt]
      by_cases h : pos = i
      · subst h; simp [hg, hg', ho]
      · simp [h]
    · unfold World.counterAt
      simp only [List.get?_set_of_lt' _ _ hlt]
      by_cases h : pos = i
      · subst h; simp [hg, hg', hc]
      · simp [h]

theorem evol_bumpCounter (w : World) (pos : Nat) : World.Evol w (w.bumpCounter pos) :=
  evol_modifyInj (fun _ => rfl) (fun _ => rfl) (fun _ => Nat.le_succ _)

theorem protoOf_writeObj (s : InjStrategy) (i : Nat) (v : Val) :
    (s.writeObj i v).protoOf = s.protoOf := by
  cases s <;> rfl

theorem objsLen_writeObj (s : InjStrategy) (i : Nat) (v : Val) :
    (s.writeObj i v).objsLen = s.objsLen := by
  cases s with
  | inline p o => rfl
  | dyn p o => simp [InjStrategy.writeObj, InjStrategy.objsLen]

theorem evol_writeObj (w : World) (pos i : Nat) (v : Val) :
    World.Evol w (w.modifyInj pos (fun s => { s with strategy := s.strategy.writeObj i v })) :=
  evol_modifyInj (fun s => protoOf_writeObj s.strategy i v)
    (fun s => objsLen_writeObj s.strategy i v) (fun _ => le_rfl)

theorem evol_alloc (w : World) : World.Evol w { w with nextAlloc := w.nextAlloc + 1 } :=
  ⟨fun _ => rfl, fun _ => rfl, fun _ => le_rfl, Nat.le_succ _⟩

/-- Frame theorem: any resolution step evolves the state within the frame
relation (chain shape, protos and slot counts untouched; counters and the
allocation counter never decrease). -/
theorem step_evol (fuel : Nat) (w : World) (c : Call) : World.Evol w (step fuel w c).2 := by
  induction fuel generalizing w c with
  | zero => exact Evol.refl w
  | succ fuel ih =>
    cases c with
    | getByKey pos key skipSelf selfVis nfv =>
      simp only [step]
      by_cases h0 : key == INJECTOR_KEY_ID
      · simp [h0]; exact Evol.refl w
      · simp only [h0, Bool.false_eq_true, if_false]
        by_cases h1 : selfVis
        · simp [h1]; exact ih w _
        · simp [h1]; exact ih w _
    | getByKeySelf pos key nfv =>
      simp only [step]
      rcases hres : step fuel w (.getObjByKeyId pos key) with ⟨r, w1⟩
      have he := ih w (.getObjByKeyId pos key)
      rw [hres] at he
      cases r with
      | ok v => cases v <;> simp [hres] <;> exact he
      | error e => simp [hres]; exact he
    | getByKeyDefault pos key nfv skipSelf =>
      simp only [step]; exact ih w _
    | chainWalk pos key nfv =>
      simp only [step]
      by_cases hlt : pos < w.injs.length
      · simp only [hlt, if_true]
        rcases hres : step fuel w (.getObjByKeyId pos key) with ⟨r, w1⟩
        have he := ih w (.getObjByKeyId pos key)
        rw [hres] at he
        cases r with
        | ok v =>
          cases v with
          | undef =>
            simp only [hres]
            exact Evol.trans he (ih w1 _)
          | null => simp [hres]; exact he
          | injectorSelf p => simp [hres]; exact he
          | obj f a n => simp [hres]; exact he
          | arr es => simp [hres]; exact he
        | error e => simp [hres]; exact he
      · simp [hlt]; exact Evol.refl w
    | getObjByKeyId pos key =>
      simp only [step]
      cases hinj : w.inj? pos with
      | none => simp [hinj]; exact Evol.refl w
      | some inj =>
        simp only [hinj]
        cases hs : inj.strategy.searchKeyId key with
        | none => simp; exact Evol.refl w
        | some i =>
          simp only
          cases hro : inj.strategy.readObj i with
          | undef =>
            simp only
            cases hps : inj.strategy.providerAtSlot i with
            | none => exact Evol.refl w
            | some p =>
              simp only
              rcases hres : step fuel w (.newCall pos p) with ⟨r, w1⟩
              have he := ih w (.newCall pos p)
              rw [hres] at he
              cases r with
              | ok v => exact Evol.trans he (evol_writeObj w1 pos i v)
              | error e => exact he
          | null => exact Evol.refl w
          | injectorSelf p => exact Evol.refl w
          | obj f a n => exact Evol.refl w
          | arr es => exact Evol.refl w
    | newCall pos p =>
      simp only [step]
      cases hinj : w.inj? pos with
      | none => simp; exact Evol.refl w
      | some inj =>
        simp only
        by_cases hc : inj.constructionCounter > inj.strategy.getMaxNumberOfObjects
        · simp [hc]; exact evol_bumpCounter w pos
        · simp only [hc, if_false]
          exact Evol.trans (evol_bumpCounter w pos) (ih _ _)
    | instantiateProvider pos p =>
      simp only [step]
      by_cases hm : p.multiProvider
      · simp [hm]; exact ih w _
      · simp only [hm, Bool.false_eq_true, if_false]
        cases p.resolvedFactories.get? 0 with
        | none => exact Evol.refl w
        | some rf => exact ih w _
    | multiLoop pos p rfs acc =>
      simp only [step]
      cases rfs with
      | nil => exact Evol.refl w
      | cons rf rest =>
        rcases hres : step fuel w (.instantiate pos p rf) with ⟨r, w1⟩
        have he := ih w (.instantiate pos p rf)
        rw [hres] at he
        cases r with
        | ok v => simp only [hres]; exact Evol.trans he (ih w1 _)
        | error e => simp [hres]; exact he
    | instantiate pos p rf =>
      simp only [step]
      rcases hres : step fuel w (.depLoop pos (rf.dependencies.take 20) []) with ⟨r, w1⟩
      have he := ih w (.depLoop pos (rf.dependencies.take 20) [])
      rw [hres] at he
      cases r with
      | ok v =>
        cases v with
        | arr args =>
          simp only [hres]
          by_cases hlen : rf.dependencies.length > 20
          · simp [hlen]; exact he
          · simp only [hlen, if_false]
            exact Evol.trans he (evol_alloc w1)
        | null => simp [hres]; exact he
        | undef => simp [hres]; exact he
        | injectorSelf q => simp [hres]; exact he
        | obj f a n => simp [hres]; exact he
      | error e => simp [hres]; exact he
    | depLoop pos deps acc =>
      simp only [step]
      cases deps with
      | nil => exact Evol.refl w
      | cons d rest =>
        rcases hres : step fuel w (.getByDep pos d) with ⟨r, w1⟩
        have he := ih w (.getByDep pos d)
        rw [hres] at he
        cases r with
        | ok v => simp only [hres]; exact Evol.trans he (ih w1 _)
        | error e => simp [hres]; exact he
    | getByDep pos d =>
      simp only [step]; exact ih w _

theorem findKeyIdx_lt_length {α : Type} {p : α → Bool} {l : List α} {i : Nat}
    (h : findKeyIdx p l = some i) : i < l.length := by
  induction l generalizing i with
  | nil => exact absurd h (by simp [findKeyIdx])
  | cons x xs ih =>
    unfold findKeyIdx at h
    by_cases hx : p x
    · simp [hx] at h; simp only [List.length_cons]; omega
    · simp only [hx, Bool.false_eq_true, if_false, Option.map_eq_some'] at h
      obtain ⟨j, hj, rfl⟩ := h
      have := ih hj
      simp only [List.length_cons]
      omega

theorem findKeyIdx_none_of_all {α : Type} {p : α → Bool} {l : List α}
    (h : ∀ x ∈ l, p x = false) : findKeyIdx p l = none := by
  induction l with
  | nil => rfl
  | cons x xs ih =>
    unfold findKeyIdx
    rw [h x (by simp), ih (fun y hy => h y (by simp [hy]))]
    simp

theorem searchKeyId_proto (s : InjStrategy) (k : KeyId) :
    s.searchKeyId k = s.protoOf.searchKeyId k := by
  cases s <;> rfl

theorem searchKeyId_writeObj (s : InjStrategy) (i : Nat) (v : Val) (k : KeyId) :
    (s.writeObj i v).searchKeyId k = s.searchKeyId k := by
  cases s <;> rfl

end CoreDI

namespace CoreDI


theorem getD_set_self {α : Type} (l : List α) (i : Nat) (v d : α) (h : i < l.length) :
    (l.set i v).getD i d = v := by
  have : (l.set i v).get? i = some v := by
    rw [List.get?_set_of_lt' _ _ h]; simp
  show ((l.set i v).get? i).getD d = v
  rw [this]; rfl

theorem inj?_lt_length {w : World} {pos : Nat} {inj : InjState}
    (h : w.inj? pos = some inj) : pos < w.injs.length := by
  unfold World.inj? at h
  rw [List.get?_eq_getElem?] at h
  exact (List.getElem?_eq_some.mp h).1

theorem inj?_of_lt {w : World} {pos : Nat} (h : pos < w.injs.length) :
    ∃ inj, w.inj? pos = some inj := by
  unfold World.inj?
  rw [List.get?_eq_getElem?]
  exact ⟨w.injs[pos], List.getElem?_eq_getElem h⟩

theorem keyIdsList_length (p : ProtoInline) : p.keyIdsList.length = 10 := rfl

theorem search_lt_objsLen {s : InjStrategy} {k : KeyId} {i : Nat}
    (hwf : s.slotsOkB = true) (hs : s.searchKeyId k = some i) : i < s.objsLen := by
  cases s with
  | inline p o =>
    have := findKeyIdx_lt_length hs
    simpa [keyIdsList_length, InjStrategy.objsLen, MAX_CONSTRUCTION_COUNTER] using this
  | dyn p objs =>
    have h1 := findKeyIdx_lt_length hs
    have h2 : p.keyIds.length ≤ objs.length := by
      simpa [InjStrategy.slotsOkB] using hwf
    simp only [InjStrategy.objsLen]
    omega

theorem readObj_writeObj {s : InjStrategy} {i : Nat} (v : Val) (hi : i < s.objsLen) :
    (s.writeObj i v).readObj i = v := by
  cases s with
  | inline p o =>
    have h10 : i < 10 := hi
    unfold InjStrategy.writeObj InjStrategy.readObj
    interval_cases i <;> rfl
  | dyn p objs =>
    unfold InjStrategy.writeObj InjStrategy.readObj
    exact getD_set_self objs i v _ hi

theorem slotsOk_at {w : World} {pos : Nat} {inj : InjState}
    (hwf : w.slotsOkB = true) (h : w.inj? pos = some inj) : inj.strategy.slotsOkB = true := by
  unfold World.slotsOkB at hwf
  rw [List.all_eq_true] at hwf
  unfold World.inj? at h
  exact hwf inj (List.get?_mem h)

-- L1: miss
theorem getObj_miss {w : World} {pos : Nat} {key : KeyId} {inj : InjState}
    (hinj : w.inj? pos = some inj) (hs : inj.strategy.searchKeyId key = none) (fuel : Nat) :
    step (fuel + 1) w (.getObjByKeyId pos key) = (.ok .undef, w) := by
  simp [step, hinj, hs]

-- ok-value shapes
theorem instantiate_ok_obj {fuel : Nat} {w : World} {pos : Nat} {p : ResolvedReflectiveProvider}
    {rf : ResolvedReflectiveFactory} {v : Val} {w' : World}
    (h : step fuel w (.instantiate pos p rf) = (.ok v, w')) : ∃ f a n, v = .obj f a n := by
  cases fuel with
  | zero => simp [step] at h
  | succ fuel =>
    simp only [step] at h
    rcases hd : step fuel w (.depLoop pos (rf.dependencies.take 20) []) with ⟨r, w1⟩
    rw [hd] at h
    cases r with
    | error e => simp at h
    | ok u =>
      cases u with
      | arr args =>
        by_cases hlen : rf.dependencies.length > 20
        · simp [hlen] at h
        · simp only [hlen, if_false] at h
          obtain ⟨hv, -⟩ := Prod.mk.injEq .. ▸ h
          exact ⟨rf.factory, args, w1.nextAlloc, (Except.ok.injEq .. ▸ hv).symm⟩
      | null => simp at h
      | undef => simp at h
      | injectorSelf q => simp at h
      | obj f a n => simp at h

theorem multiLoop_ok_arr {fuel : Nat} {w : World} {pos : Nat} {p : ResolvedReflectiveProvider}
    {rfs : List ResolvedReflectiveFactory} {acc : List Val} {v : Val} {w' : World}
    (h : step fuel w (.multiLoop pos p rfs acc) = (.ok v, w')) : ∃ es, v = .arr es := by
  induction fuel generalizing w rfs acc with
  | zero => simp [step] at h
  | succ fuel ih =>
    simp only [step] at h
    cases rfs with
    | nil =>
      obtain ⟨hv, -⟩ := Prod.mk.injEq .. ▸ h
      exact ⟨acc.reverse, (Except.ok.injEq .. ▸ hv).symm⟩
    | cons rf rest =>
      dsimp only at h
      rcases hi : step fuel w (.instantiate pos p rf) with ⟨r, w1⟩
      rw [hi] at h
      cases r with
      | ok u => exact ih h
      | error e => simp at h

theorem instProv_ok_shape {fuel : Nat} {w : World} {pos : Nat} {p : ResolvedReflectiveProvider}
    {v : Val} {w' : World}
    (h : step fuel w (.instantiateProvider pos p) = (.ok v, w')) :
    (∃ f a n, v = .obj f a n) ∨ (∃ es, v = .arr es) := by
  cases fuel with
  | zero => simp [step] at h
  | succ fuel =>
    simp only [step] at h
    by_cases hm : p.multiProvider
    · rw [if_pos hm] at h
      exact Or.inr (multiLoop_ok_arr h)
    · rw [if_neg hm] at h
      cases hg : p.resolvedFactories.get? 0 with
      | none => rw [hg] at h; simp at h
      | some rf =>
        rw [hg] at h
        exact Or.inl (instantiate_ok_obj h)

theorem newCall_ok_shape {fuel : Nat} {w : World} {pos : Nat} {p : ResolvedReflectiveProvider}
    {v : Val} {w' : World}
    (h : step fuel w (.newCall pos p) = (.ok v, w')) :
    (∃ f a n, v = .obj f a n) ∨ (∃ es, v = .arr es) := by
  cases fuel with
  | zero => simp [step] at h
  | succ fuel =>
    simp only [step] at h
    cases hinj : w.inj? pos with
    | none => rw [hinj] at h; simp at h
    | some inj =>
      rw [hinj] at h
      dsimp only at h
      by_cases hc : inj.constructionCounter > inj.strategy.getMaxNumberOfObjects
      · rw [if_pos hc] at h; simp at h
      · rw [if_neg hc] at h
        exact instProv_ok_shape h

theorem newCall_ok_ne_undef {fuel : Nat} {w : World} {pos : Nat} {p : ResolvedReflectiveProvider}
    {v : Val} {w' : World}
    (h : step fuel w (.newCall pos p) = (.ok v, w')) : v ≠ .undef := by
  rcases newCall_ok_shape h with ⟨f, a, n, rfl⟩ | ⟨es, rfl⟩ <;> intro hc <;> cases hc



theorem inj?_modifyInj_self {w : World} {pos : Nat} {inj : InjState} (f : InjState → InjState)
    (h : w.inj? pos = some inj) : (w.modifyInj pos f).inj? pos = some (f inj) := by
  have hg : w.injs.get? pos = some inj := h
  have hlt : pos < w.injs.length := inj?_lt_length h
  show (World.modifyInj w pos f).injs.get? pos = some (f inj)
  unfold World.modifyInj
  rw [hg]
  simp only
  rw [List.get?_set_of_lt' _ _ hlt]
  simp

theorem protoAt_some {w : World} {pos : Nat} {inj : InjState} (h : w.inj? pos = some inj) :
    w.protoAt pos = some inj.strategy.protoOf := by
  have hg : w.injs.get? pos = some inj := h
  unfold World.protoAt
  rw [hg]; rfl

theorem protoAt_inv {w : World} {pos : Nat} {ps : ProtoStrategy} (h : w.protoAt pos = some ps) :
    ∃ inj, w.inj? pos = some inj ∧ inj.strategy.protoOf = ps := by
  unfold World.protoAt at h
  cases hg : w.injs.get? pos with
  | none => rw [hg] at h; simp at h
  | some inj =>
    rw [hg] at h
    simp only [Option.map_some', Option.some.injEq] at h
    exact ⟨inj, hg, h⟩

theorem objsLenAt_some {w : World} {pos : Nat} {inj : InjState} (h : w.inj? pos = some inj) :
    w.objsLenAt pos = some inj.strategy.objsLen := by
  have hg : w.injs.get? pos = some inj := h
  unfold World.objsLenAt
  rw [hg]; rfl

-- L1 converse: an undefined result means the key is not stored, and nothing changed
theorem getObj_undef_inv {fuel : Nat} {w : World} {pos : Nat} {key : KeyId} {w2 : World}
    (h : step fuel w (.getObjByKeyId pos key) = (.ok .undef, w2)) :
    w2 = w ∧ ∃ inj, w.inj? pos = some inj ∧ inj.strategy.searchKeyId key = none := by
  cases fuel with
  | zero => simp [step] at h
  | succ fuel =>
    simp only [step] at h
    cases hinj : w.inj? pos with
    | none => rw [hinj] at h; simp at h
    | some inj =>
      rw [hinj] at h
      dsimp only at h
      cases hs : inj.strategy.searchKeyId key with
      | none =>
        rw [hs] at h
        dsimp only at h
        obtain ⟨-, hw⟩ := Prod.mk.injEq .. ▸ h
        exact ⟨hw.symm, inj, rfl, hs⟩
      | some i =>
        rw [hs] at h
        dsimp only at h
        cases hro : inj.strategy.readObj i with
        | undef =>
          rw [hro] at h
          dsimp only at h
          cases hps : inj.strategy.providerAtSlot i with
          | none => rw [hps] at h; simp at h
          | some p =>
            rw [hps] at h
            dsimp only at h
            rcases hn : step fuel w (.newCall pos p) with ⟨r, w1⟩
            rw [hn] at h
            cases r with
            | ok v =>
              dsimp only at h
              obtain ⟨hv, -⟩ := Prod.mk.injEq .. ▸ h
              exact absurd (Except.ok.injEq .. ▸ hv) (newCall_ok_ne_undef hn)
            | error e => simp at h
        | null => rw [hro] at h; simp at h
        | injectorSelf q => rw [hro] at h; simp at h
        | obj f a n => rw [hro] at h; simp at h
        | arr es => rw [hro] at h; simp at h

-- L2: cache hit
theorem getObj_hit {w : World} {pos : Nat} {key : KeyId} {inj : InjState} {i : Nat} {v : Val}
    (hinj : w.inj? pos = some inj) (hs : inj.strategy.searchKeyId key = some i)
    (hro : inj.strategy.readObj i = v) (hv : v ≠ .undef) (fuel : Nat) :
    step (fuel + 1) w (.getObjByKeyId pos key) = (.ok v, w) := by
  simp only [step, hinj, hs]
  rw [hro]
  cases v with
  | undef => exact absurd rfl hv
  | null => rfl
  | injectorSelf q => rfl
  | obj f a n => rfl
  | arr es => rfl

-- L-succ: success leaves the value in the first matching slot
theorem getObj_ok_cached {fuel : Nat} {w : World} {pos : Nat} {key : KeyId} {v : Val} {w2 : World}
    (hwf : w.slotsOkB = true)
    (h : step fuel w (.getObjByKeyId pos key) = (.ok v, w2)) (hv : v ≠ .undef) :
    ∃ inj2, w2.inj? pos = some inj2 ∧ inj2.strategy.cachedAt key = some v := by
  cases fuel with
  | zero => simp [step] at h
  | succ fuel =>
    simp only [step] at h
    cases hinj : w.inj? pos with
    | none => rw [hinj] at h; simp at h
    | some inj =>
      rw [hinj] at h
      dsimp only at h
      cases hs : inj.strategy.searchKeyId key with
      | none =>
        rw [hs] at h
        dsimp only at h
        obtain ⟨hvv, -⟩ := Prod.mk.injEq .. ▸ h
        exact absurd (Except.ok.injEq .. ▸ hvv).symm hv
      | some i =>
        rw [hs] at h
        dsimp only at h
        cases hro : inj.strategy.readObj i with
        | undef =>
          rw [hro] at h
          dsimp only at h
          cases hps : inj.strategy.providerAtSlot i with
          | none => rw [hps] at h; simp at h
          | some p =>
            rw [hps] at h
            dsimp only at h
            rcases hn : step fuel w (.newCall pos p) with ⟨r, w1⟩
            rw [hn] at h
            cases r with
            | error e => simp at h
            | ok u =>
              dsimp only at h
              obtain ⟨hvv, hww⟩ := Prod.mk.injEq .. ▸ h
              obtain rfl : u = v := Except.ok.injEq .. ▸ hvv
              have hev := step_evol fuel w (.newCall pos p)
              rw [hn] at hev
              obtain ⟨hproto, hobjs, -, -⟩ := hev
              have hp1 : w1.protoAt pos = some inj.strategy.protoOf := by
                have := hproto pos
                dsimp only at this
                rw [this, protoAt_some hinj]
              obtain ⟨inj1, hinj1, hpr1⟩ := protoAt_inv hp1
              have hobj1 : inj1.strategy.objsLen = inj.strategy.objsLen := by
                have h1 := hobjs pos
                dsimp only at h1
                rw [objsLenAt_some hinj1, objsLenAt_some hinj] at h1
                simpa using h1
              refine ⟨{ inj1 with strategy := inj1.strategy.writeObj i u }, ?_, ?_⟩
              · rw [← hww]
                exact inj?_modifyInj_self _ hinj1
              · unfold InjStrategy.cachedAt
                have hsrch : (inj1.strategy.writeObj i u).searchKeyId key = some i := by
                  rw [searchKeyId_writeObj, searchKeyId_proto, hpr1, ← searchKeyId_proto]
                  exact hs
                rw [hsrch]
                simp only [Option.map_some', Option.some.injEq]
                have hi : i < inj1.strategy.objsLen := by
                  rw [hobj1]
                  exact search_lt_objsLen (slotsOk_at hwf hinj) hs
                exact readObj_writeObj u hi
        | null =>
          rw [hro] at h
          dsimp only at h
          obtain ⟨hvv, hww⟩ := Prod.mk.injEq .. ▸ h
          refine ⟨inj, hww ▸ hinj, ?_⟩
          unfold InjStrategy.cachedAt
          rw [hs]
          simp [hro, Except.ok.injEq .. ▸ hvv]
        | injectorSelf q =>
          rw [hro] at h
          dsimp only at h
          obtain ⟨hvv, hww⟩ := Prod.mk.injEq .. ▸ h
          refine ⟨inj, hww ▸ hinj, ?_⟩
          unfold InjStrategy.cachedAt
          rw [hs]
          simp [hro, Except.ok.injEq .. ▸ hvv]
        | obj f a n =>
          rw [hro] at h
          dsimp only at h
          obtain ⟨hvv, hww⟩ := Prod.mk.injEq .. ▸ h
          refine ⟨inj, hww ▸ hinj, ?_⟩
          unfold InjStrategy.cachedAt
          rw [hs]
          simp [hro, Except.ok.injEq .. ▸ hvv]
        | arr es =>
          rw [hro] at h
          dsimp only at h
          obtain ⟨hvv, hww⟩ := Prod.mk.injEq .. ▸ h
          refine ⟨inj, hww ▸ hinj, ?_⟩
          unfold InjStrategy.cachedAt
          rw [hs]
          simp [hro, Except.ok.injEq .. ▸ hvv]



-- success characterization of the parent-chain walk under the throw sentinel
theorem chainWalk_ok {fuel : Nat} :
    ∀ {w : World} {pos : Nat} {key : KeyId} {v : Val} {w2 : World},
    step fuel w (.chainWalk pos key none) = (.ok v, w2) → w.slotsOkB = true →
    v ≠ .undef ∧
    ∃ j, pos ≤ j ∧ j < w.injs.length ∧
      (∀ m, pos ≤ m → m < j → ∃ injm, w.inj? m = some injm ∧ injm.strategy.searchKeyId key = none) ∧
      (∃ inj2, w2.inj? j = some inj2 ∧ inj2.strategy.cachedAt key = some v) := by
  induction fuel with
  | zero => intro w pos key v w2 h _; simp [step] at h
  | succ fuel ih =>
    intro w pos key v w2 h hwf
    simp only [step] at h
    by_cases hlt : pos < w.injs.length
    · rw [if_pos hlt] at h
      rcases hg : step fuel w (.getObjByKeyId pos key) with ⟨r, w1⟩
      rw [hg] at h
      cases r with
      | error e => simp at h
      | ok u =>
        cases u with
        | undef =>
          dsimp only at h
          obtain ⟨hwq, injp, hinjp, hsp⟩ := getObj_undef_inv hg
          subst hwq
          obtain ⟨hvne, j, hj1, hj2, hpre, hcached⟩ := ih h hwf
          refine ⟨hvne, j, by omega, hj2, ?_, hcached⟩
          intro m hm1 hm2
          by_cases hmp : m = pos
          · subst hmp; exact ⟨injp, hinjp, hsp⟩
          · exact hpre m (by omega) hm2
        | null =>
          dsimp only at h
          obtain ⟨hvv, hww⟩ := Prod.mk.injEq .. ▸ h
          obtain rfl : Val.null = v := Except.ok.injEq .. ▸ hvv
          refine ⟨fun hc => Val.noConfusion hc, pos, le_rfl, hlt, fun m hm1 hm2 => absurd hm1 (by omega), ?_⟩
          exact hww ▸ getObj_ok_cached hwf hg (fun hc => Val.noConfusion hc)
        | injectorSelf q =>
          dsimp only at h
          obtain ⟨hvv, hww⟩ := Prod.mk.injEq .. ▸ h
          obtain rfl : Val.injectorSelf q = v := Except.ok.injEq .. ▸ hvv
          refine ⟨fun hc => Val.noConfusion hc, pos, le_rfl, hlt, fun m hm1 hm2 => absurd hm1 (by omega), ?_⟩
          exact hww ▸ getObj_ok_cached hwf hg (fun hc => Val.noConfusion hc)
        | obj f a n =>
          dsimp only at h
          obtain ⟨hvv, hww⟩ := Prod.mk.injEq .. ▸ h
          obtain rfl : Val.obj f a n = v := Except.ok.injEq .. ▸ hvv
          refine ⟨fun hc => Val.noConfusion hc, pos, le_rfl, hlt, fun m hm1 hm2 => absurd hm1 (by omega), ?_⟩
          exact hww ▸ getObj_ok_cached hwf hg (fun hc => Val.noConfusion hc)
        | arr es =>
          dsimp only at h
          obtain ⟨hvv, hww⟩ := Prod.mk.injEq .. ▸ h
          obtain rfl : Val.arr es = v := Except.ok.injEq .. ▸ hvv
          refine ⟨fun hc => Val.noConfusion hc, pos, le_rfl, hlt, fun m hm1 hm2 => absurd hm1 (by omega), ?_⟩
          exact hww ▸ getObj_ok_cached hwf hg (fun hc => Val.noConfusion hc)
    · rw [if_neg hlt] at h
      simp [throwOrNull] at h

-- walking into a chain whose first j - pos injectors miss and whose j-th has
-- the value cached returns the cached value and changes nothing
theorem chainWalk_hit :
    ∀ (d : Nat) {fuel : Nat} {w : World} {pos : Nat} {key : KeyId} {v : Val}
      {inj2 : InjState} (nfv : NotFoundValue),
    (∀ m, pos ≤ m → m < pos + d → ∃ injm, w.inj? m = some injm ∧ injm.strategy.searchKeyId key = none) →
    w.inj? (pos + d) = some inj2 → inj2.strategy.cachedAt key = some v → v ≠ .undef →
    2 * d + 2 ≤ fuel →
    step fuel w (.chainWalk pos key nfv) = (.ok v, w) := by
  intro d
  induction d with
  | zero =>
    intro fuel w pos key v inj2 nfv hpre hinj hcache hv hfuel
    rw [Nat.add_zero] at hinj
    have hlt : pos < w.injs.length := inj?_lt_length hinj
    obtain ⟨i, hs, hro⟩ : ∃ i, inj2.strategy.searchKeyId key = some i ∧
        inj2.strategy.readObj i = v := by
      unfold InjStrategy.cachedAt at hcache
      cases hsk : inj2.strategy.searchKeyId key with
      | none => rw [hsk] at hcache; simp at hcache
      | some i =>
        rw [hsk] at hcache
        simp only [Option.map_some', Option.some.injEq] at hcache
        exact ⟨i, rfl, hcache⟩
    obtain ⟨f, rfl⟩ : ∃ f, fuel = f + 1 := ⟨fuel - 1, by omega⟩
    simp only [step, if_pos hlt]
    obtain ⟨g, rfl⟩ : ∃ g, f = g + 1 := ⟨f - 1, by omega⟩
    rw [getObj_hit hinj hs hro hv g]
    cases v with
    | undef => exact absurd rfl hv
    | null => rfl
    | injectorSelf q => rfl
    | obj ff a n => rfl
    | arr es => rfl
  | succ d ihd =>
    intro fuel w pos key v inj2 nfv hpre hinj hcache hv hfuel
    obtain ⟨injp, hinjp, hsp⟩ := hpre pos le_rfl (by omega)
    have hlt : pos < w.injs.length := inj?_lt_length hinjp
    obtain ⟨f, rfl⟩ : ∃ f, fuel = f + 1 := ⟨fuel - 1, by omega⟩
    simp only [step, if_pos hlt]
    obtain ⟨g, rfl⟩ : ∃ g, f = g + 1 := ⟨f - 1, by omega⟩
    rw [getObj_miss hinjp hsp g]
    dsimp only
    have harith : pos + 1 + d = pos + (d + 1) := by omega
    exact ihd nfv (fun m hm1 hm2 => hpre m (by omega) (by omega)) (harith ▸ hinj)
      hcache hv (by omega)



theorem chainWalk_all_miss :
    ∀ (d : Nat) {fuel : Nat} {w : World} {pos : Nat} {key : KeyId} (nfv : NotFoundValue),
    w.injs.length ≤ pos + d →
    (∀ m, m < w.injs.length → ∃ injm, w.inj? m = some injm ∧ injm.strategy.searchKeyId key = none) →
    2 * d + 1 ≤ fuel →
    step fuel w (.chainWalk pos key nfv) = (throwOrNull key nfv, w) := by
  intro d
  induction d with
  | zero =>
    intro fuel w pos key nfv hlen hmiss hfuel
    obtain ⟨f, rfl⟩ : ∃ f, fuel = f + 1 := ⟨fuel - 1, by omega⟩
    simp only [step]
    rw [if_neg (by omega)]
  | succ d ihd =>
    intro fuel w pos key nfv hlen hmiss hfuel
    obtain ⟨f, rfl⟩ : ∃ f, fuel = f + 1 := ⟨fuel - 1, by omega⟩
    by_cases hlt : pos < w.injs.length
    · simp only [step, if_pos hlt]
      obtain ⟨injp, hinjp, hsp⟩ := hmiss pos hlt
      obtain ⟨g, rfl⟩ : ∃ g, f = g + 1 := ⟨f - 1, by omega⟩
      rw [getObj_miss hinjp hsp g]
      dsimp only
      exact ihd nfv (by omega) hmiss (by omega)
    · simp only [step, if_neg hlt]

theorem protoAt_none_iff {w : World} {pos : Nat} :
    w.protoAt pos = none ↔ w.injs.length ≤ pos := by
  unfold World.protoAt
  rw [Option.map_eq_none', List.get?_eq_getElem?, List.getElem?_eq_none_iff]

theorem evol_length {w w2 : World} (hev : World.Evol w w2) :
    w2.injs.length = w.injs.length := by
  obtain ⟨hp, -, -, -⟩ := hev
  have h1 : w2.protoAt w.injs.length = none := by
    rw [hp]; exact protoAt_none_iff.mpr le_rfl
  have h2 : w.protoAt w2.injs.length = none := by
    rw [← hp]; exact protoAt_none_iff.mpr le_rfl
  have := protoAt_none_iff.mp h1
  have := protoAt_none_iff.mp h2
  omega

theorem search_transfer {w w2 : World} (hev : World.Evol w w2) {m : Nat} {injm : InjState}
    (hm : w.inj? m = some injm) :
    ∃ injm2, w2.inj? m = some injm2 ∧
      ∀ k, injm2.strategy.searchKeyId k = injm.strategy.searchKeyId k := by
  obtain ⟨hp, -, -, -⟩ := hev
  have hpm : w2.protoAt m = some injm.strategy.protoOf := by
    rw [hp m]; exact protoAt_some hm
  obtain ⟨injm2, hm2, hpr⟩ := protoAt_inv hpm
  refine ⟨injm2, hm2, fun k => ?_⟩
  rw [searchKeyId_proto, hpr, ← searchKeyId_proto]



theorem keyFound_miss {w : World} {k : KeyId} (hnf : w.keyFoundB k = false) :
    ∀ m, m < w.injs.length → ∃ injm, w.inj? m = some injm ∧ injm.strategy.searchKeyId k = none := by
  unfold World.keyFoundB at hnf
  rw [Bool.or_eq_false_iff] at hnf
  obtain ⟨-, hany⟩ := hnf
  rw [List.any_eq_false] at hany
  intro m hm
  obtain ⟨injm, hinjm⟩ := inj?_of_lt hm
  refine ⟨injm, hinjm, ?_⟩
  have hks := hany injm (List.get?_mem hinjm)
  unfold InjStrategy.hasKeyB at hks
  cases hx : injm.strategy.searchKeyId k with
  | none => rfl
  | some i => rw [hx] at hks; simp at hks

theorem keyFound_ne_inj {w : World} {k : KeyId} (hnf : w.keyFoundB k = false) :
    (k == INJECTOR_KEY_ID) = false := by
  unfold World.keyFoundB at hnf
  rw [Bool.or_eq_false_iff] at hnf
  exact hnf.1

theorem getByDep_absent_null (w : World) (d : ReflectiveDependency) {fuel : Nat}
    (hopt : d.optional = true) (hnf : w.keyFoundB d.keyId = false)
    (hne : 0 < w.injs.length) (hb : 2 * w.injs.length + 9 ≤ fuel) :
    step fuel w (.getByDep 0 d) = (.ok Val.null, w) := by
  have hkey := keyFound_ne_inj hnf
  have hmiss := keyFound_miss hnf
  obtain ⟨f, hf, hfb⟩ : ∃ f, fuel = f + 2 ∧ 2 * w.injs.length + 5 ≤ f :=
    ⟨fuel - 2, by omega, by omega⟩
  rw [hf]
  simp only [step, hopt, if_true, hkey, Bool.false_eq_true, if_false]
  by_cases hsv : d.selfVis
  · simp only [hsv, if_true]
    obtain ⟨g, rfl⟩ : ∃ g, f = g + 1 := ⟨f - 1, by omega⟩
    simp only [step]
    obtain ⟨g2, rfl⟩ : ∃ g2, g = g2 + 1 := ⟨g - 1, by omega⟩
    obtain ⟨inj0b, hinj0b, hs0b⟩ := hmiss 0 hne
    rw [getObj_miss hinj0b hs0b g2]
    rfl
  · simp only [hsv, Bool.false_eq_true, if_false]
    obtain ⟨g, rfl⟩ : ∃ g, f = g + 1 := ⟨f - 1, by omega⟩
    simp only [step]
    have hwalk := @chainWalk_all_miss w.injs.length g w
      (if d.skipSelf then 0 + 1 else 0) d.keyId (some Val.null)
      (Nat.le_add_left _ _) hmiss (by omega)
    rw [hwalk]
    rfl

theorem depLoop_absent_null :
    ∀ (m : Nat) {fuel : Nat} {w : World} (acc : List Val) (k : KeyId),
    w.keyFoundB k = false → 0 < w.injs.length →
    m + 2 * w.injs.length + 10 ≤ fuel →
    step fuel w (.depLoop 0 (List.replicate m (optionalDep k)) acc) =
      (.ok (.arr (acc.reverse ++ List.replicate m Val.null)), w) := by
  intro m
  induction m with
  | zero =>
    intro fuel w acc k hnf hne hfuel
    obtain ⟨f, rfl⟩ : ∃ f, fuel = f + 1 := ⟨fuel - 1, by omega⟩
    simp only [step, List.replicate]
    simp
  | succ m ih =>
    intro fuel w acc k hnf hne hfuel
    obtain ⟨f, rfl⟩ : ∃ f, fuel = f + 1 := ⟨fuel - 1, by omega⟩
    rw [List.replicate_succ]
    simp only [step]
    rw [getByDep_absent_null w (optionalDep k) rfl hnf hne (by omega)]
    dsimp only
    rw [ih (Val.null :: acc) k hnf hne (by omega)]
    simp [List.replicate_succ]

/-- Claim C10: a dependency marked optional whose key is found in no
injector of the chain (the Injector self token counting as always found)
resolves without throwing to exactly null, because
_getByReflectiveDependency passes null instead of the throw sentinel for
optional dependencies; the state is untouched. -/
theorem C10_optional_resolves_null (w : World) (d : ReflectiveDependency)
    (hopt : d.optional = true) (hnf : w.keyFoundB d.keyId = false)
    (hne : 0 < w.injs.length) :
    step w.fuelBudget w (.getByDep 0 d) = (.ok Val.null, w) :=
  getByDep_absent_null w d hopt hnf hne (by unfold World.fuelBudget; omega)



/-- Claim C5: get is idempotent. If a get of a token bound by a non-multi
provider succeeds with value v leaving state w2, a second get of the same
token on w2 returns the identical object v (same allocation tag, hence
reference equality) and changes nothing: in particular no factory runs again
(the allocation counter of the returned state is unchanged). The theorem
holds for every successful get; the hypothesis records the claim's non-multi
binding. -/
theorem C5_get_idempotent (w : World) (key : KeyId) (v : Val) (w2 : World)
    (hbound : w.boundNonMultiB key = true)
    (hwf : w.slotsOkB = true)
    (h : ReflectiveInjector.get w key = (.ok v, w2)) :
    ReflectiveInjector.get w2 key = (.ok v, w2) := by
  unfold ReflectiveInjector.get getFromPos at h ⊢
  have hb : 9 ≤ w.fuelBudget := by unfold World.fuelBudget; omega
  obtain ⟨f, hf⟩ : ∃ f, w.fuelBudget = f + 1 := ⟨w.fuelBudget - 1, by omega⟩
  rw [hf] at h
  simp only [step] at h
  by_cases hk : (key == INJECTOR_KEY_ID) = true
  · rw [hk] at h
    simp only [if_true] at h
    obtain ⟨hv, hw⟩ := Prod.mk.injEq .. ▸ h
    obtain rfl : Val.injectorSelf 0 = v := Except.ok.injEq .. ▸ hv
    subst hw
    have hb2 : 1 ≤ w.fuelBudget := by omega
    obtain ⟨f2, hf2⟩ : ∃ f2, w.fuelBudget = f2 + 1 := ⟨w.fuelBudget - 1, by omega⟩
    rw [hf2]
    simp only [step, hk, if_true]
  · rw [Bool.not_eq_true] at hk
    rw [hk] at h
    simp only [Bool.false_eq_true, if_false] at h
    obtain ⟨f2, rfl⟩ : ∃ f2, f = f2 + 1 := ⟨f - 1, by omega⟩
    simp only [step] at h
    simp only [Bool.false_eq_true, if_false] at h
    -- h : step f2 w (.chainWalk 0 key none) = (.ok v, w2)
    obtain ⟨hvne, j, hj0, hjlen, hpre, inj2, hinj2, hcache⟩ := chainWalk_ok h hwf
    have hev : World.Evol w w2 := by
      have := step_evol f2 w (.chainWalk 0 key none)
      rw [h] at this
      exact this
    have hlen2 : w2.injs.length = w.injs.length := evol_length hev
    have hb2 : 2 * j + 8 ≤ w2.fuelBudget := by
      unfold World.fuelBudget; omega
    obtain ⟨g, hg, hgb⟩ : ∃ g, w2.fuelBudget = g + 2 ∧ 2 * j + 2 ≤ g :=
      ⟨w2.fuelBudget - 2, by omega, by omega⟩
    rw [hg]
    simp only [step, hk, Bool.false_eq_true, if_false]
    refine chainWalk_hit j none ?_ ?_ hcache hvne (by omega)
    · intro m hm1 hm2
      obtain ⟨injm, hinjm, hsm⟩ := hpre m hm1 (by omega)
      obtain ⟨injm2, hinjm2, hsm2⟩ := search_transfer hev hinjm
      exact ⟨injm2, hinjm2, (hsm2 key).trans hsm⟩
    · rw [Nat.zero_add]; exact hinj2

/-- Claim C4: with a two-injector chain (child at position 0, parent at
position 1) where the token's provider is declared only on the parent, a
successful child get resolves by walking to the parent, instantiating and
caching there; the parent's own get afterwards returns the identical
instance with no further state change. Resolving the same token as a
dependency with self-only (Self) visibility from the child instead fails
with a no-provider error even though the parent has the provider. -/
theorem C4_parent_child_instance (w : World) (key : KeyId) (v : Val) (w2 : World)
    (hlen : w.injs.length = 2)
    (hchild : w.hasKeyAtB 0 key = false)
    (hparent : w.hasKeyAtB 1 key = true)
    (hkey : (key == INJECTOR_KEY_ID) = false)
    (hwf : w.slotsOkB = true)
    (h : ReflectiveInjector.get w key = (.ok v, w2)) :
    getFromPos w2 1 key = (.ok v, w2) ∧
    step w2.fuelBudget w2 (.getByDep 0 (selfOnlyDep key)) = (.error (.noProvider [key]), w2) := by
  unfold ReflectiveInjector.get getFromPos at h
  have hb : 9 ≤ w.fuelBudget := by unfold World.fuelBudget; omega
  obtain ⟨f, hf⟩ : ∃ f, w.fuelBudget = f + 2 := ⟨w.fuelBudget - 2, by omega⟩
  rw [hf] at h
  simp only [step, hkey, Bool.false_eq_true, if_false] at h
  obtain ⟨hvne, j, hj0, hjlen, hpre, inj2, hinj2, hcache⟩ := chainWalk_ok h hwf
  have hev : World.Evol w w2 := by
    have := step_evol f w (.chainWalk 0 key none)
    rw [h] at this
    exact this
  have hlen2 : w2.injs.length = w.injs.length := evol_length hev
  -- the success position is the parent: the child does not store the key
  have hj1 : j = 1 := by
    rcases Nat.lt_or_ge j 1 with hj | hj
    · exfalso
      obtain rfl : j = 0 := by omega
      -- cached at child in w2 means the child's proto stores the key
      have hs2 : (inj2.strategy.searchKeyId key).isSome = true := by
        unfold InjStrategy.cachedAt at hcache
        cases hx : inj2.strategy.searchKeyId key with
        | none => rw [hx] at hcache; simp at hcache
        | some i => rfl
      obtain ⟨inj0, hinj0⟩ := inj?_of_lt (by omega : (0:Nat) < w.injs.length)
      obtain ⟨inj02, hinj02, hs02⟩ := search_transfer hev hinj0
      have : inj02 = inj2 := by rw [hinj02] at hinj2; exact Option.some.injEq .. ▸ hinj2
      subst this
      unfold World.hasKeyAtB at hchild
      have hg0 : w.injs.get? 0 = some inj0 := hinj0
      rw [hg0] at hchild
      dsimp only at hchild
      unfold InjStrategy.hasKeyB at hchild
      rw [← hs02 key] at hchild
      rw [hs2] at hchild
      exact Bool.noConfusion hchild
    · omega
  subst hj1
  constructor
  · have hb2 : 12 ≤ w2.fuelBudget := by unfold World.fuelBudget; omega
    obtain ⟨g, hg⟩ : ∃ g, w2.fuelBudget = g + 2 := ⟨w2.fuelBudget - 2, by omega⟩
    unfold getFromPos
    rw [hg]
    simp only [step, hkey, Bool.false_eq_true, if_false]
    exact chainWalk_hit 0 none (fun m hm1 hm2 => absurd hm1 (by omega))
      (by rw [Nat.add_zero]; exact hinj2) hcache hvne (by omega)
  · have hb2 : 12 ≤ w2.fuelBudget := by unfold World.fuelBudget; omega
    obtain ⟨inj0, hinj0⟩ := inj?_of_lt (by omega : (0:Nat) < w.injs.length)
    obtain ⟨inj02, hinj02, hs02⟩ := search_transfer hev hinj0
    have hs0 : inj0.strategy.searchKeyId key = none := by
      unfold World.hasKeyAtB at hchild
      have hg0 : w.injs.get? 0 = some inj0 := hinj0
      rw [hg0] at hchild
      dsimp only at hchild
      unfold InjStrategy.hasKeyB at hchild
      cases hx : inj0.strategy.searchKeyId key with
      | none => rfl
      | some i => rw [hx] at hchild; simp at hchild
    obtain ⟨g, hg⟩ : ∃ g, w2.fuelBudget = g + 1 := ⟨w2.fuelBudget - 1, by omega⟩
    rw [hg]
    simp only [step, selfOnlyDep]
    obtain ⟨g1, rfl⟩ : ∃ g1, g = g1 + 1 := ⟨g - 1, by omega⟩
    simp only [step, hkey, Bool.false_eq_true, if_false, if_true]
    obtain ⟨g2, rfl⟩ : ∃ g2, g1 = g2 + 1 := ⟨g1 - 1, by omega⟩
    simp only [step]
    obtain ⟨g3, rfl⟩ : ∃ g3, g2 = g3 + 1 := ⟨g2 - 1, by omega⟩
    rw [getObj_miss hinj02 ((hs02 key).trans hs0) g3]
    rfl


end CoreDI

/-!
Claim theorems. Each claim of the specification audit gets exactly one
theorem (with a witness when the theorem carries hypotheses, and a
counterexample theorem when the claim as stated fails on the code).
-/

open CoreDI NgZoneModel

/-- Claim C6: from the initial stable tracker state, running a function that
schedules no asynchronous work and returns normally emits exactly one
onUnstable, one onMicrotaskEmpty and one onStable notification, in that
order, and leaves the tracker stable with nesting zero and nothing
pending. -/
theorem C6_run_quiescent {α : Type} (f : α → α) (a : α) :
    zoneRun (fun x => .ok (f x)) a initialZ =
      (.ok (f a),
       { hasPendingMicrotasks := false
         hasPendingMacrotasks := false
         isStable := true
         nesting := 0
         log := [.unstable, .microtaskEmpty, .stable] }) := rfl

/-- Claim C7: a synchronously thrown error propagates out of run and is
absent from the onError stream, while the same error is captured by
runGuarded, emitted on the onError stream exactly once, and does not
propagate; no execution both rethrows and reports. -/
theorem C7_error_routing {α : Type} (fn : α → Except Nat α) (a : α) (e : Nat)
    (h : fn a = .error e) :
    zoneRun fn a initialZ =
      (.error e,
       { hasPendingMicrotasks := false
         hasPendingMacrotasks := false
         isStable := true
         nesting := 0
         log := [.unstable, .microtaskEmpty, .stable] }) ∧
    ((zoneRun fn a initialZ).2).errorLogs = [] ∧
    zoneRunGuarded fn a initialZ =
      (none,
       { hasPendingMicrotasks := false
         hasPendingMacrotasks := false
         isStable := true
         nesting := 0
         log := [.unstable, .microtaskEmpty, .stable, .errorEvent e] }) ∧
    ((zoneRunGuarded fn a initialZ).2).errorLogs = [e] := by
  refine ⟨?_, ?_, ?_, ?_⟩ <;>
    simp [zoneRun, zoneRunGuarded, h, onEnter, onLeave, checkStable, emit,
      handleZoneError, triggerError, initialZ, ZState.errorLogs]

/-- Claim C7 witness: the guarded run of a function throwing error code 5
logs exactly that error. -/
theorem C7_error_routing_witness :
    ((zoneRunGuarded ngFailingFn 0 initialZ).2).errorLogs = [5] :=
  (C7_error_routing ngFailingFn 0 5 rfl).2.2.2

/-- Claim C8 counterexample: for the inline strategy with three providers,
index 5 is invalid (5 is at least the provider count) yet getProviderAtIndex
returns the empty slot content (null) instead of failing with an
out-of-bounds error; hence the claim, which demands an out-of-bounds failure
for every invalid index under both strategies, is false. -/
theorem C8_oob_cex :
    (ProtoStrategy.ofList threeProviders).getProviderAtIndex 5 = .ok none ∧
    ¬ (∀ (l : List ResolvedReflectiveProvider) (i : Int),
        (i < 0 ∨ (l.length : Int) ≤ i) →
        (ProtoStrategy.ofList l).getProviderAtIndex i = .error (.outOfBounds i)) := by
  refine ⟨rfl, fun h => ?_⟩
  have h5 := h threeProviders 5 (by decide)
  rw [show (ProtoStrategy.ofList threeProviders).getProviderAtIndex 5 =
        (Except.ok none : Except DIError (Option ResolvedReflectiveProvider)) from rfl] at h5
  exact Except.noConfusion h5

/-- Claim C8 amended: getProviderAtIndex fails with an out-of-bounds error
exactly for indices outside 0..n-1 under the dynamic strategy (chosen for
more than ten providers), and exactly for indices outside 0..9 under the
inline strategy (chosen otherwise); an index between the provider count and
9 under the inline strategy returns the empty (null) slot rather than
failing. In-range indices return the indexed provider under both. -/
theorem C8_oob_amended (l : List ResolvedReflectiveProvider) (i : Int) :
    (ProtoStrategy.ofList l).getProviderAtIndex i =
      if l.length > MAX_CONSTRUCTION_COUNTER then
        if i < 0 ∨ (l.length : Int) ≤ i then .error (.outOfBounds i) else .ok (l.get? i.toNat)
      else
        if i < 0 ∨ (10 : Int) ≤ i then .error (.outOfBounds i) else .ok (l.get? i.toNat) := by
  unfold ProtoStrategy.ofList
  by_cases h : l.length > MAX_CONSTRUCTION_COUNTER
  · simp only [h, if_pos, if_true]
    simp [ProtoStrategy.getProviderAtIndex, ProtoDynamic.getProviderAtIndex, ProtoDynamic.ofList]
  · simp only [h, if_neg, if_false]
    by_cases hrange : i < 0 ∨ (10 : Int) ≤ i
    · have h0 : i ≠ 0 := by omega
      have h1 : i ≠ 1 := by omega
      have h2 : i ≠ 2 := by omega
      have h3 : i ≠ 3 := by omega
      have h4 : i ≠ 4 := by omega
      have h5 : i ≠ 5 := by omega
      have h6 : i ≠ 6 := by omega
      have h7 : i ≠ 7 := by omega
      have h8 : i ≠ 8 := by omega
      have h9 : i ≠ 9 := by omega
      simp [ProtoStrategy.getProviderAtIndex, ProtoInline.getProviderAtIndex, hrange,
        h0, h1, h2, h3, h4, h5, h6, h7, h8, h9]
    · have hlo : 0 ≤ i := by omega
      have hhi : i < 10 := by omega
      interval_cases i <;>
        simp [ProtoStrategy.getProviderAtIndex, ProtoInline.getProviderAtIndex, ProtoInline.ofList]

/-- Claim C1 counterexample: the construction counter is not reset at the
entry point of a get invocation. After one failed cyclic get of key 2 on the
self-cycle world, the counter retains its twelve increments, so a subsequent
get of the unrelated, perfectly resolvable key 1 fails with a
cyclic-dependency error; explicitly resetting the counter (the
resetConstructionCounter operation no source code path invokes) makes the
same get succeed. Hence earlier lazy instantiations do count toward the
limit of later get calls, refuting the claimed fresh-counter-per-get
behaviour. -/
theorem C1_counter_not_reset_cex :
    (ReflectiveInjector.get worldAfterCyclicGet 1).1 = .error (.cyclicDependency 1) ∧
    (ReflectiveInjector.get (worldAfterCyclicGet.resetConstructionCounter 0) 1).1 =
      .ok (.obj 100 [] 0) ∧
    worldAfterCyclicGet.counterAt 0 = 12 ∧
    ¬ (∀ (w : World) (key : KeyId),
        (ReflectiveInjector.get w key).1 =
          (ReflectiveInjector.get (w.resetConstructionCounter 0) key).1) := by
  refine ⟨rfl, rfl, rfl, fun h => ?_⟩
  have h1 := h worldAfterCyclicGet 1
  rw [show (ReflectiveInjector.get worldAfterCyclicGet 1).1 =
        Except.error (DIError.cyclicDependency 1) from rfl,
      show (ReflectiveInjector.get (worldAfterCyclicGet.resetConstructionCounter 0) 1).1 =
        Except.ok (Val.obj 100 [] 0) from rfl] at h1
  exact Except.noConfusion h1

/-- Claim C1 amended: the construction counter is initialised to zero when
the injector is constructed and is never reset afterwards; resolution only
ever increases it, so the counter context is shared across all top-level get
invocations on the same injector and earlier lazy instantiations count
toward the cyclic-dependency limit of later calls (the strategies define a
resetConstructionCounter operation, but no code path invokes it). -/
theorem C1_counter_monotone_amended :
    (∀ l, (InjState.fromResolvedProviders l).constructionCounter = 0) ∧
    (∀ (w : World) (key : KeyId) (pos : Nat),
      w.counterAt pos ≤ ((ReflectiveInjector.get w key).2).counterAt pos) := by
  constructor
  · intro l
    unfold InjState.fromResolvedProviders
    cases ProtoStrategy.ofList l <;> rfl
  · intro w key pos
    exact (step_evol w.fuelBudget w (.getByKey 0 key false false none)).2.2.1 pos


/-- Claim C10 witness: an optional dependency on the absent key 99 resolves
to null on the single-provider world. -/
theorem C10_optional_resolves_null_witness :
    step CoreDI.singleValueWorld.fuelBudget CoreDI.singleValueWorld
      (.getByDep 0 (CoreDI.optionalDep 99)) = (.ok CoreDI.Val.null, CoreDI.singleValueWorld) :=
  C10_optional_resolves_null singleValueWorld (optionalDep 99) rfl (by decide) (by decide)

/-- Claim C5 witness: getting key 1 twice on the single-provider world
returns the same allocation-0 object, the second call through the cache. -/
theorem C5_get_idempotent_witness :
    ReflectiveInjector.get CoreDI.singleValueAfterGet 1 =
      (.ok (.obj 100 [] 0), CoreDI.singleValueAfterGet) :=
  C5_get_idempotent singleValueWorld 1 (.obj 100 [] 0) singleValueAfterGet
    (by decide) (by decide) rfl

/-- Claim C4 witness: after the child get of key 1 on the parent-only world,
the parent get returns the identical allocation-0 instance and the self-only
dependency from the child fails with a no-provider error. -/
theorem C4_parent_child_instance_witness :
    getFromPos CoreDI.parentOnlyAfterGet 1 1 =
      (.ok (.obj 100 [] 0), CoreDI.parentOnlyAfterGet) ∧
    step CoreDI.parentOnlyAfterGet.fuelBudget CoreDI.parentOnlyAfterGet
      (.getByDep 0 (CoreDI.selfOnlyDep 1)) =
      (.error (.noProvider [1]), CoreDI.parentOnlyAfterGet) :=
  C4_parent_child_instance parentOnlyWorld 1 (.obj 100 [] 0) parentOnlyAfterGet
    (by decide) (by decide) (by decide) (by decide) (by decide) rfl

namespace CoreDI

/-- Claim C9: a resolved provider whose factory has more than twenty
dependencies cannot be instantiated: the injector resolves the first twenty
dependencies, then the argument dispatch falls into the default branch and
throws an error stating the provider cannot be instantiated because it has
more than 20 dependencies, which the surrounding catch wraps into an
InstantiationError carrying the provider's key. Only the construction
counter increment of the attempted _new survives. -/
theorem C9_more_than_20_deps (n : Nat) (h20 : 20 < n) :
    ReflectiveInjector.get (manyDepsWorld n) 1 =
      (.error (.instantiationErr (.tooManyDeps 1) [1]), (manyDepsWorld n).bumpCounter 0) := by
  set w := manyDepsWorld n with hw
  set w1 := (manyDepsWorld n).bumpCounter 0 with hw1
  set p := manyDepsProvider n with hp
  set theErr : DIError := .instantiationErr (.tooManyDeps 1) [1] with hE
  have hinj : w.inj? 0 = some (InjState.fromResolvedProviders [manyDepsProvider n]) := rfl
  have hlenw : w.injs.length = 1 := rfl
  have hcnt : (InjState.fromResolvedProviders [manyDepsProvider n]).constructionCounter = 0 := rfl
  have hmax : (InjState.fromResolvedProviders [manyDepsProvider n]).strategy.getMaxNumberOfObjects = 10 := rfl
  have hnf1 : w1.keyFoundB 99 = false := rfl
  have hlen1 : w1.injs.length = 1 := rfl
  have hne1 : 0 < w1.injs.length := by omega
  have hrf : p.resolvedFactories.get? 0 = some ⟨7, List.replicate n (optionalDep 99)⟩ := rfl
  have hinst : ∀ f, 40 ≤ f → step f w1 (.instantiate 0 p ⟨7, List.replicate n (optionalDep 99)⟩) =
      (.error theErr, w1) := by
    intro f hf
    obtain ⟨g, rfl⟩ : ∃ g, f = g + 1 := ⟨f - 1, by omega⟩
    simp only [step]
    rw [show (List.replicate n (optionalDep 99)).take 20 = List.replicate 20 (optionalDep 99) by
      rw [List.take_replicate, Nat.min_eq_left (by omega)]]
    rw [depLoop_absent_null 20 [] 99 hnf1 hne1 (by omega)]
    dsimp only
    rw [List.length_replicate, if_pos h20]
    rfl
  have hip : ∀ f, 41 ≤ f → step f w1 (.instantiateProvider 0 p) = (.error theErr, w1) := by
    intro f hf
    obtain ⟨g, rfl⟩ : ∃ g, f = g + 1 := ⟨f - 1, by omega⟩
    simp only [step]
    rw [show p.multiProvider = false from rfl]
    simp only [Bool.false_eq_true, if_false]
    rw [hrf]
    dsimp only
    exact hinst g (by omega)
  have hnc : ∀ f, 42 ≤ f → step f w (.newCall 0 p) = (.error theErr, w1) := by
    intro f hf
    obtain ⟨g, rfl⟩ : ∃ g, f = g + 1 := ⟨f - 1, by omega⟩
    simp only [step]
    rw [hinj]
    dsimp only
    rw [if_neg (by rw [hcnt, hmax]; omega)]
    exact hip g (by omega)
  have hobj : ∀ f, 43 ≤ f → step f w (.getObjByKeyId 0 1) = (.error theErr, w1) := by
    intro f hf
    obtain ⟨g, rfl⟩ : ∃ g, f = g + 1 := ⟨f - 1, by omega⟩
    simp only [step]
    rw [hinj]
    dsimp only
    rw [show (InjState.fromResolvedProviders [manyDepsProvider n]).strategy.searchKeyId 1 = some 0 from rfl]
    dsimp only
    rw [show (InjState.fromResolvedProviders [manyDepsProvider n]).strategy.readObj 0 = .undef from rfl]
    dsimp only
    rw [show (InjState.fromResolvedProviders [manyDepsProvider n]).strategy.providerAtSlot 0 = some p from rfl]
    dsimp only
    rw [hnc g (by omega)]
  have hwalk : ∀ f, 44 ≤ f → step f w (.chainWalk 0 1 none) = (.error theErr, w1) := by
    intro f hf
    obtain ⟨g, rfl⟩ : ∃ g, f = g + 1 := ⟨f - 1, by omega⟩
    simp only [step]
    rw [if_pos (show 0 < w.injs.length from by rw [hlenw]; omega)]
    rw [hobj g (by omega)]
  have hbudget : w.fuelBudget = 6500 := rfl
  unfold ReflectiveInjector.get getFromPos
  obtain ⟨f, hf⟩ : ∃ f, w.fuelBudget = f + 2 := ⟨w.fuelBudget - 2, by omega⟩
  rw [hf]
  simp only [step, INJECTOR_KEY_ID]
  norm_num
  exact hwalk f (by omega)

end CoreDI

/-- Claim C9 witness: twenty-one optional dependencies trigger the
more-than-20-dependencies instantiation error. -/
theorem C9_more_than_20_deps_witness :
    CoreDI.ReflectiveInjector.get (CoreDI.manyDepsWorld 21) 1 =
      (.error (.instantiationErr (.tooManyDeps 1) [1]), (CoreDI.manyDepsWorld 21).bumpCounter 0) :=
  CoreDI.C9_more_than_20_deps 21 (by decide)

namespace CoreDI

theorem getD_replicate_same {α : Type} (m i : Nat) (a : α) :
    (List.replicate m a).getD i a = a := by
  induction m generalizing i with
  | zero => cases i <;> rfl
  | succ m ih =>
    cases i with
    | zero => rfl
    | succ i => rw [List.replicate_succ]; exact ih i

theorem cyc_newCall (strat : InjStrategy) (cap : Nat)
    (hcap : strat.getMaxNumberOfObjects = cap)
    (hs1 : strat.searchKeyId 1 = some 0) (hs2 : strat.searchKeyId 2 = some 1)
    (hr0 : strat.readObj 0 = .undef) (hr1 : strat.readObj 1 = .undef)
    (hp0 : strat.providerAtSlot 0 = some (depProvider 1 101 2))
    (hp1 : strat.providerAtSlot 1 = some (depProvider 2 102 1)) :
    ∀ (m : Nat) (c : Nat) (which : Bool), c + m = cap + 1 →
    ∃ t, (t = 1 ∨ t = 2) ∧ ∀ (fuel : Nat), 9 * m + 12 ≤ fuel →
    step fuel (singleInjWorld strat c)
        (.newCall 0 (if which then depProvider 1 101 2 else depProvider 2 102 1)) =
      (.error (.cyclicDependency t), singleInjWorld strat (cap + 2)) := by
  intro m
  induction m with
  | zero =>
    intro c which hc
    refine ⟨if which then 1 else 2, by cases which <;> simp, ?_⟩
    intro fuel hf
    obtain ⟨g, rfl⟩ : ∃ g, fuel = g + 1 := ⟨fuel - 1, by omega⟩
    simp only [step]
    rw [show (singleInjWorld strat c).inj? 0 = some ⟨strat, c⟩ from rfl]
    dsimp only
    rw [if_pos (show (⟨strat, c⟩ : InjState).constructionCounter > (⟨strat, c⟩ : InjState).strategy.getMaxNumberOfObjects from by dsimp only; rw [hcap]; omega)]
    rw [show (singleInjWorld strat c).bumpCounter 0 = singleInjWorld strat (c + 1) from rfl]
    rw [show c + 1 = cap + 2 from by omega]
    cases which <;> rfl
  | succ m ih =>
    intro c which hc
    obtain ⟨t, ht, ihfn⟩ := ih (c + 1) (!which) (by omega)
    refine ⟨t, ht, ?_⟩
    intro fuel hf
    have hw1 : (singleInjWorld strat c).bumpCounter 0 = singleInjWorld strat (c + 1) := rfl
    have hinjc : (singleInjWorld strat c).inj? 0 = some ⟨strat, c⟩ := rfl
    have hinj1 : (singleInjWorld strat (c + 1)).inj? 0 = some ⟨strat, c + 1⟩ := rfl
    have hlen1 : (singleInjWorld strat (c + 1)).injs.length = 1 := rfl
    cases which with
    | true =>
      rw [show (!true) = false from rfl] at ihfn
      rw [show (if false = true then depProvider 1 101 2 else depProvider 2 102 1) = depProvider 2 102 1 from rfl] at ihfn
      have hobj : ∀ f, 9 * m + 13 ≤ f →
          step f (singleInjWorld strat (c + 1)) (.getObjByKeyId 0 2) =
            (.error (.cyclicDependency t), singleInjWorld strat (cap + 2)) := by
        intro f hff
        obtain ⟨g, rfl⟩ : ∃ g, f = g + 1 := ⟨f - 1, by omega⟩
        simp only [step]
        rw [hinj1]
        dsimp only
        rw [hs2]
        dsimp only
        rw [hr1]
        dsimp only
        rw [hp1]
        dsimp only
        rw [ihfn g (by omega)]
      have hwalk : ∀ f, 9 * m + 14 ≤ f →
          step f (singleInjWorld strat (c + 1)) (.chainWalk 0 2 none) =
            (.error (.cyclicDependency t), singleInjWorld strat (cap + 2)) := by
        intro f hff
        obtain ⟨g, rfl⟩ : ∃ g, f = g + 1 := ⟨f - 1, by omega⟩
        simp only [step]
        rw [if_pos (show 0 < (singleInjWorld strat (c + 1)).injs.length from by rw [hlen1]; omega)]
        rw [hobj g (by omega)]
      have hdep : ∀ f, 9 * m + 17 ≤ f →
          step f (singleInjWorld strat (c + 1)) (.getByDep 0 (simpleDep 2)) =
            (.error (.cyclicDependency t), singleInjWorld strat (cap + 2)) := by
        intro f hff
        obtain ⟨g, rfl⟩ : ∃ g, f = g + 1 := ⟨f - 1, by omega⟩
        simp only [step, simpleDep]
        obtain ⟨g2, rfl⟩ : ∃ g2, g = g2 + 1 := ⟨g - 1, by omega⟩
        simp only [step]
        norm_num
        obtain ⟨g3, rfl⟩ : ∃ g3, g2 = g3 + 1 := ⟨g2 - 1, by omega⟩
        simp only [step]
        exact hwalk g3 (by omega)
      have hloop : ∀ f, 9 * m + 18 ≤ f →
          step f (singleInjWorld strat (c + 1)) (.depLoop 0 [simpleDep 2] []) =
            (.error (.cyclicDependency t), singleInjWorld strat (cap + 2)) := by
        intro f hff
        obtain ⟨g, rfl⟩ : ∃ g, f = g + 1 := ⟨f - 1, by omega⟩
        simp only [step]
        rw [hdep g (by omega)]
      have hins : ∀ f, 9 * m + 19 ≤ f →
          step f (singleInjWorld strat (c + 1)) (.instantiate 0 (depProvider 1 101 2) ⟨101, [simpleDep 2]⟩) =
            (.error (.cyclicDependency t), singleInjWorld strat (cap + 2)) := by
        intro f hff
        obtain ⟨g, rfl⟩ : ∃ g, f = g + 1 := ⟨f - 1, by omega⟩
        simp only [step]
        rw [show (⟨101, [simpleDep 2]⟩ : ResolvedReflectiveFactory).dependencies.take 20 = [simpleDep 2] from rfl]
        rw [hloop g (by omega)]
        rfl
      have hip : ∀ f, 9 * m + 20 ≤ f →
          step f (singleInjWorld strat (c + 1)) (.instantiateProvider 0 (depProvider 1 101 2)) =
            (.error (.cyclicDependency t), singleInjWorld strat (cap + 2)) := by
        intro f hff
        obtain ⟨g, rfl⟩ : ∃ g, f = g + 1 := ⟨f - 1, by omega⟩
        simp only [step]
        rw [show (depProvider 1 101 2).multiProvider = false from rfl]
        simp only [Bool.false_eq_true, if_false]
        rw [show (depProvider 1 101 2).resolvedFactories.get? 0 = some ⟨101, [simpleDep 2]⟩ from rfl]
        dsimp only
        exact hins g (by omega)
      obtain ⟨g, rfl⟩ : ∃ g, fuel = g + 1 := ⟨fuel - 1, by omega⟩
      simp only [step]
      rw [hinjc]
      dsimp only
      rw [if_neg (show ¬ ((⟨strat, c⟩ : InjState).constructionCounter > (⟨strat, c⟩ : InjState).strategy.getMaxNumberOfObjects) from by dsimp only; rw [hcap]; omega)]
      rw [hw1]
      simp only [eq_self_iff_true, if_true]
      exact hip g (by omega)
    | false =>
      rw [show (!false) = true from rfl] at ihfn
      rw [show (if true = true then depProvider 1 101 2 else depProvider 2 102 1) = depProvider 1 101 2 from rfl] at ihfn
      have hobj : ∀ f, 9 * m + 13 ≤ f →
          step f (singleInjWorld strat (c + 1)) (.getObjByKeyId 0 1) =
            (.error (.cyclicDependency t), singleInjWorld strat (cap + 2)) := by
        intro f hff
        obtain ⟨g, rfl⟩ : ∃ g, f = g + 1 := ⟨f - 1, by omega⟩
        simp only [step]
        rw [hinj1]
        dsimp only
        rw [hs1]
        dsimp only
        rw [hr0]
        dsimp only
        rw [hp0]
        dsimp only
        rw [ihfn g (by omega)]
      have hwalk : ∀ f, 9 * m + 14 ≤ f →
          step f (singleInjWorld strat (c + 1)) (.chainWalk 0 1 none) =
            (.error (.cyclicDependency t), singleInjWorld strat (cap + 2)) := by
        intro f hff
        obtain ⟨g, rfl⟩ : ∃ g, f = g + 1 := ⟨f - 1, by omega⟩
        simp only [step]
        rw [if_pos (show 0 < (singleInjWorld strat (c + 1)).injs.length from by rw [hlen1]; omega)]
        rw [hobj g (by omega)]
      have hdep : ∀ f, 9 * m + 17 ≤ f →
          step f (singleInjWorld strat (c + 1)) (.getByDep 0 (simpleDep 1)) =
            (.error (.cyclicDependency t), singleInjWorld strat (cap + 2)) := by
        intro f hff
        obtain ⟨g, rfl⟩ : ∃ g, f = g + 1 := ⟨f - 1, by omega⟩
        simp only [step, simpleDep]
        obtain ⟨g2, rfl⟩ : ∃ g2, g = g2 + 1 := ⟨g - 1, by omega⟩
        simp only [step]
        norm_num
        obtain ⟨g3, rfl⟩ : ∃ g3, g2 = g3 + 1 := ⟨g2 - 1, by omega⟩
        simp only [step]
        exact hwalk g3 (by omega)
      have hloop : ∀ f, 9 * m + 18 ≤ f →
          step f (singleInjWorld strat (c + 1)) (.depLoop 0 [simpleDep 1] []) =
            (.error (.cyclicDependency t), singleInjWorld strat (cap + 2)) := by
        intro f hff
        obtain ⟨g, rfl⟩ : ∃ g, f = g + 1 := ⟨f - 1, by omega⟩
        simp only [step]
        rw [hdep g (by omega)]
      have hins : ∀ f, 9 * m + 19 ≤ f →
          step f (singleInjWorld strat (c + 1)) (.instantiate 0 (depProvider 2 102 1) ⟨102, [simpleDep 1]⟩) =
            (.error (.cyclicDependency t), singleInjWorld strat (cap + 2)) := by
        intro f hff
        obtain ⟨g, rfl⟩ : ∃ g, f = g + 1 := ⟨f - 1, by omega⟩
        simp only [step]
        rw [show (⟨102, [simpleDep 1]⟩ : ResolvedReflectiveFactory).dependencies.take 20 = [simpleDep 1] from rfl]
        rw [hloop g (by omega)]
        rfl
      have hip : ∀ f, 9 * m + 20 ≤ f →
          step f (singleInjWorld strat (c + 1)) (.instantiateProvider 0 (depProvider 2 102 1)) =
            (.error (.cyclicDependency t), singleInjWorld strat (cap + 2)) := by
        intro f hff
        obtain ⟨g, rfl⟩ : ∃ g, f = g + 1 := ⟨f - 1, by omega⟩
        simp only [step]
        rw [show (depProvider 2 102 1).multiProvider = false from rfl]
        simp only [Bool.false_eq_true, if_false]
        rw [show (depProvider 2 102 1).resolvedFactories.get? 0 = some ⟨102, [simpleDep 1]⟩ from rfl]
        dsimp only
        exact hins g (by omega)
      obtain ⟨g, rfl⟩ : ∃ g, fuel = g + 1 := ⟨fuel - 1, by omega⟩
      simp only [step]
      rw [hinjc]
      dsimp only
      rw [if_neg (show ¬ ((⟨strat, c⟩ : InjState).constructionCounter > (⟨strat, c⟩ : InjState).strategy.getMaxNumberOfObjects) from by dsimp only; rw [hcap]; omega)]
      rw [hw1]
      simp only [Bool.false_eq_true, if_false]
      exact hip g (by omega)


theorem cyc_entry (strat : InjStrategy) (cap : Nat)
    (hcap : strat.getMaxNumberOfObjects = cap)
    (hs1 : strat.searchKeyId 1 = some 0) (hs2 : strat.searchKeyId 2 = some 1)
    (hr0 : strat.readObj 0 = .undef) (hr1 : strat.readObj 1 = .undef)
    (hp0 : strat.providerAtSlot 0 = some (depProvider 1 101 2))
    (hp1 : strat.providerAtSlot 1 = some (depProvider 2 102 1)) :
    ∃ t, (t = 1 ∨ t = 2) ∧
      step (singleInjWorld strat 0).fuelBudget (singleInjWorld strat 0)
          (.getByKey 0 1 false false none) =
        (.error (.cyclicDependency t), singleInjWorld strat (cap + 2)) := by
  obtain ⟨t, ht, hfn⟩ := cyc_newCall strat cap hcap hs1 hs2 hr0 hr1 hp0 hp1 (cap + 1) 0 true (by omega)
  rw [show (if true = true then depProvider 1 101 2 else depProvider 2 102 1) = depProvider 1 101 2 from rfl] at hfn
  refine ⟨t, ht, ?_⟩
  have hbud : (singleInjWorld strat 0).fuelBudget = 1000 + 500 * 1 + 500 * (strat.getMaxNumberOfObjects + 0) := rfl
  have hbudge : 9 * (cap + 1) + 18 ≤ (singleInjWorld strat 0).fuelBudget := by
    rw [hbud, hcap]; omega
  have hinj0 : (singleInjWorld strat 0).inj? 0 = some ⟨strat, 0⟩ := rfl
  have hlen0 : (singleInjWorld strat 0).injs.length = 1 := rfl
  have hobj : ∀ f, 9 * (cap + 1) + 13 ≤ f →
      step f (singleInjWorld strat 0) (.getObjByKeyId 0 1) =
        (.error (.cyclicDependency t), singleInjWorld strat (cap + 2)) := by
    intro f hff
    obtain ⟨g, rfl⟩ : ∃ g, f = g + 1 := ⟨f - 1, by omega⟩
    simp only [step]
    rw [hinj0]
    dsimp only
    rw [hs1]
    dsimp only
    rw [hr0]
    dsimp only
    rw [hp0]
    dsimp only
    rw [hfn g (by omega)]
  have hwalk : ∀ f, 9 * (cap + 1) + 14 ≤ f →
      step f (singleInjWorld strat 0) (.chainWalk 0 1 none) =
        (.error (.cyclicDependency t), singleInjWorld strat (cap + 2)) := by
    intro f hff
    obtain ⟨g, rfl⟩ : ∃ g, f = g + 1 := ⟨f - 1, by omega⟩
    simp only [step]
    rw [if_pos (show 0 < (singleInjWorld strat 0).injs.length from by rw [hlen0]; omega)]
    rw [hobj g (by omega)]
  obtain ⟨f, hf⟩ : ∃ f, (singleInjWorld strat 0).fuelBudget = f + 2 :=
    ⟨(singleInjWorld strat 0).fuelBudget - 2, by omega⟩
  rw [hf]
  simp only [step, INJECTOR_KEY_ID]
  norm_num
  exact hwalk f (by omega)


/-- Claim C2: an injector whose providers form a two-token dependency cycle
(key 1 needs key 2 and key 2 needs key 1, alongside k independent pad
providers) terminates a get of the cyclic token with a CyclicDependencyError
rather than recursing without bound: each nested _new increments the
construction counter, and the error is thrown once the counter exceeds the
capacity, which is the fixed ten of the inline strategy when the injector
holds at most ten providers and the provider count of the dynamic strategy
beyond; the final counter is exactly that capacity plus two. -/
theorem C2_cycle_cyclic_error (k : Nat) :
    ∃ t, (t = 1 ∨ t = 2) ∧
      (ReflectiveInjector.get (cycleWorld k) 1).1 = .error (.cyclicDependency t) ∧
      ((ReflectiveInjector.get (cycleWorld k) 1).2).counterAt 0 =
        (if k + 2 ≤ MAX_CONSTRUCTION_COUNTER then MAX_CONSTRUCTION_COUNTER else k + 2) + 2 := by
  have hlen : (cycleProviders k).length = k + 2 := by
    simp [cycleProviders, padProviders]
  by_cases hk : k + 2 ≤ MAX_CONSTRUCTION_COUNTER
  · -- inline strategy
    have hof : ProtoStrategy.ofList (cycleProviders k) =
        .inline (ProtoInline.ofList (cycleProviders k)) := by
      unfold ProtoStrategy.ofList
      rw [if_neg (by rw [hlen]; omega)]
    have hfrp : InjState.fromResolvedProviders (cycleProviders k) =
        ⟨.inline (ProtoInline.ofList (cycleProviders k)) InlineObjs.empty, 0⟩ := by
      unfold InjState.fromResolvedProviders
      rw [hof]
    have hCW : cycleWorld k =
        singleInjWorld (.inline (ProtoInline.ofList (cycleProviders k)) InlineObjs.empty) 0 := by
      unfold cycleWorld World.ofChain singleInjWorld
      rw [show (List.map InjState.fromResolvedProviders [cycleProviders k]) =
        [InjState.fromResolvedProviders (cycleProviders k)] from rfl, hfrp]
    obtain ⟨t, ht, hrun⟩ := cyc_entry
      (.inline (ProtoInline.ofList (cycleProviders k)) InlineObjs.empty)
      MAX_CONSTRUCTION_COUNTER rfl rfl rfl rfl rfl rfl rfl
    refine ⟨t, ht, ?_, ?_⟩
    · unfold ReflectiveInjector.get getFromPos
      rw [hCW, hrun]
    · unfold ReflectiveInjector.get getFromPos
      rw [hCW, hrun, if_pos hk]
      rfl
  · -- dynamic strategy
    have hof : ProtoStrategy.ofList (cycleProviders k) =
        .dyn (ProtoDynamic.ofList (cycleProviders k)) := by
      unfold ProtoStrategy.ofList
      rw [if_pos (by rw [hlen]; omega)]
    have hfrp : InjState.fromResolvedProviders (cycleProviders k) =
        ⟨.dyn (ProtoDynamic.ofList (cycleProviders k))
          (List.replicate (ProtoDynamic.ofList (cycleProviders k)).providers.length Val.undef), 0⟩ := by
      unfold InjState.fromResolvedProviders
      rw [hof]
    have hCW : cycleWorld k =
        singleInjWorld (.dyn (ProtoDynamic.ofList (cycleProviders k))
          (List.replicate (ProtoDynamic.ofList (cycleProviders k)).providers.length Val.undef)) 0 := by
      unfold cycleWorld World.ofChain singleInjWorld
      rw [show (List.map InjState.fromResolvedProviders [cycleProviders k]) =
        [InjState.fromResolvedProviders (cycleProviders k)] from rfl, hfrp]
    have hcap : (InjStrategy.dyn (ProtoDynamic.ofList (cycleProviders k))
        (List.replicate (ProtoDynamic.ofList (cycleProviders k)).providers.length Val.undef)).getMaxNumberOfObjects = k + 2 := by
      simp only [InjStrategy.getMaxNumberOfObjects, List.length_replicate]
      exact hlen
    have hr0 : (InjStrategy.dyn (ProtoDynamic.ofList (cycleProviders k))
        (List.replicate (ProtoDynamic.ofList (cycleProviders k)).providers.length Val.undef)).readObj 0 = .undef := by
      simp only [InjStrategy.readObj]
      exact getD_replicate_same _ 0 _
    have hr1 : (InjStrategy.dyn (ProtoDynamic.ofList (cycleProviders k))
        (List.replicate (ProtoDynamic.ofList (cycleProviders k)).providers.length Val.undef)).readObj 1 = .undef := by
      simp only [InjStrategy.readObj]
      exact getD_replicate_same _ 1 _
    obtain ⟨t, ht, hrun⟩ := cyc_entry
      (.dyn (ProtoDynamic.ofList (cycleProviders k))
        (List.replicate (ProtoDynamic.ofList (cycleProviders k)).providers.length Val.undef))
      (k + 2) hcap rfl rfl hr0 hr1 rfl rfl
    refine ⟨t, ht, ?_, ?_⟩
    · unfold ReflectiveInjector.get getFromPos
      rw [hCW, hrun]
    · unfold ReflectiveInjector.get getFromPos
      rw [hCW, hrun, if_neg hk]
      rfl


end CoreDI

namespace CoreDI

/-- A list of length ten is a literal ten-element list. -/
theorem list_len10 {α : Type} {l : List α} (h : l.length = 10) :
    ∃ a0 a1 a2 a3 a4 a5 a6 a7 a8 a9, l = [a0, a1, a2, a3, a4, a5, a6, a7, a8, a9] := by
  rcases l with _ | ⟨e0, l⟩; · exact absurd h (by simp)
  rcases l with _ | ⟨e1, l⟩; · exact absurd h (by simp)
  rcases l with _ | ⟨e2, l⟩; · exact absurd h (by simp)
  rcases l with _ | ⟨e3, l⟩; · exact absurd h (by simp)
  rcases l with _ | ⟨e4, l⟩; · exact absurd h (by simp)
  rcases l with _ | ⟨e5, l⟩; · exact absurd h (by simp)
  rcases l with _ | ⟨e6, l⟩; · exact absurd h (by simp)
  rcases l with _ | ⟨e7, l⟩; · exact absurd h (by simp)
  rcases l with _ | ⟨e8, l⟩; · exact absurd h (by simp)
  rcases l with _ | ⟨e9, l⟩; · exact absurd h (by simp)
  rcases l with _ | ⟨e10, l⟩
  · exact ⟨e0, e1, e2, e3, e4, e5, e6, e7, e8, e9, rfl⟩
  · simp only [List.length_cons] at h
    omega

-- operation correspondence on a ten-element dynamic strategy

/-- On a ten-provider list the inline key scan over the ten keyId fields
equals the dynamic scan over the keyIds array. -/
theorem enc_search (l : List ResolvedReflectiveProvider) (hl : l.length = 10) (k : KeyId) :
    findKeyIdx (fun o => o == some k) (ProtoInline.ofList l).keyIdsList =
      findKeyIdx (fun q => q == k) (l.map (fun q => q.keyId)) := by
  obtain ⟨a0, a1, a2, a3, a4, a5, a6, a7, a8, a9, rfl⟩ := list_len10 hl
  rfl

/-- Reading a transported ten-slot cache equals reading the dynamic object
array. -/
theorem enc_readObj (os : List Val) (ho : os.length = 10) (i : Nat) :
    (InlineObjs.ofListD os).getAt i = os.getD i .undef := by
  obtain ⟨o0, o1, o2, o3, o4, o5, o6, o7, o8, o9, rfl⟩ := list_len10 ho
  rcases i with _ | _ | _ | _ | _ | _ | _ | _ | _ | _ | i <;> rfl

/-- Writing a slot commutes with the ten-slot cache transport. -/
theorem enc_write (os : List Val) (ho : os.length = 10) (i : Nat) (v : Val) :
    InlineObjs.ofListD (os.set i v) = (InlineObjs.ofListD os).setAt i v := by
  obtain ⟨o0, o1, o2, o3, o4, o5, o6, o7, o8, o9, rfl⟩ := list_len10 ho
  rcases i with _ | _ | _ | _ | _ | _ | _ | _ | _ | _ | i <;> rfl

/-- Slot providers agree between the transported inline proto and the
ten-element provider list. -/
theorem enc_provider (l : List ResolvedReflectiveProvider) (hl : l.length = 10) (i : Nat) :
    ((ProtoInline.ofList l).providersList.get? i).join = l.get? i := by
  obtain ⟨a0, a1, a2, a3, a4, a5, a6, a7, a8, a9, rfl⟩ := list_len10 hl
  rcases i with _ | _ | _ | _ | _ | _ | _ | _ | _ | _ | i <;> rfl

/-- The strategy transport preserves the chain length. -/
theorem encWorld_length (w : World) : (encWorld w).injs.length = w.injs.length :=
  List.length_map ..

/-- Chain lookup after the strategy transport. -/
theorem encWorld_inj? (w : World) (pos : Nat) :
    (encWorld w).inj? pos = (w.inj? pos).map encInj := by
  unfold encWorld World.inj?
  simp [List.get?_map]

/-- The strategy transport preserves the construction counter. -/
theorem encInj_counter (s : InjState) : (encInj s).constructionCounter = s.constructionCounter := by
  rcases s with ⟨st, c⟩
  cases st <;> rfl

/-- The strategy transport commutes with a counter increment. -/
theorem encInj_bump (s : InjState) :
    encInj { s with constructionCounter := s.constructionCounter + 1 } =
      { encInj s with constructionCounter := (encInj s).constructionCounter + 1 } := by
  rcases s with ⟨st, c⟩
  cases st <;> rfl

/-- The strategy transport commutes with bumpCounter. -/
theorem encWorld_bump (w : World) (pos : Nat) :
    encWorld (w.bumpCounter pos) = (encWorld w).bumpCounter pos := by
  unfold World.bumpCounter World.modifyInj encWorld
  simp only [List.get?_map]
  cases hg : w.injs.get? pos with
  | none => rfl
  | some s =>
    simp only [Option.map_some']
    rw [List.map_set]
    simp only [encInj_bump, encInj_counter]

/-- A pointwise-faithfulness-preserving injector update preserves chain
faithfulness. -/
theorem dyn10_modify (w : World) (pos : Nat) (f : InjState → InjState)
    (hf : ∀ s, s.dyn10 → (f s).dyn10) (hwf : w.dyn10) : (w.modifyInj pos f).dyn10 := by
  unfold World.modifyInj
  cases hg : w.injs.get? pos with
  | none => exact hwf
  | some s =>
    intro inj hinj
    rcases List.mem_or_eq_of_mem_set hinj with hm | rfl
    · exact hwf inj hm
    · exact hf s (hwf s (List.get?_mem hg))

/-- bumpCounter preserves the ten-provider dynamic shape. -/
theorem dyn10_bump (w : World) (pos : Nat) (hwf : w.dyn10) : (w.bumpCounter pos).dyn10 :=
  dyn10_modify w pos _ (fun s hs => by
    obtain ⟨p, objs, hst, h1, h2, h3⟩ := hs
    exact ⟨p, objs, hst, h1, h2, h3⟩) hwf

/-- A cache write preserves the ten-provider dynamic shape. -/
theorem dyn10_write (w : World) (pos i : Nat) (v : Val) (hwf : w.dyn10) :
    (w.modifyInj pos (fun s => { s with strategy := s.strategy.writeObj i v })).dyn10 := by
  refine dyn10_modify w pos _ (fun s hs => ?_) hwf
  obtain ⟨p, objs, hst, h1, h2, h3⟩ := hs
  refine ⟨p, objs.set i v, ?_, h1, ?_, h3⟩
  · show (s.strategy.writeObj i v) = _
    rw [hst]
    rfl
  · rw [List.length_set]; exact h2

/-- The strategy transport commutes with a cache write on a faithful
injector. -/
theorem encInj_write {s : InjState} (i : Nat) (v : Val) (hs : s.dyn10) :
    encInj { s with strategy := s.strategy.writeObj i v } =
      { encInj s with strategy := (encInj s).strategy.writeObj i v } := by
  obtain ⟨p, objs, hst, h1, h2, h3⟩ := hs
  rcases s with ⟨st, c⟩
  dsimp only at hst
  subst hst
  show encInj ⟨.dyn p (objs.set i v), c⟩ = _
  show (⟨.inline (ProtoInline.ofList p.providers) (InlineObjs.ofListD (objs.set i v)), c⟩ : InjState) = _
  rw [enc_write objs h2 i v]
  rfl

/-- The strategy transport commutes with the cache-write chain update on a
faithful chain. -/
theorem encWorld_write (w : World) (pos i : Nat) (v : Val) (hwf : w.dyn10) :
    encWorld (w.modifyInj pos (fun s => { s with strategy := s.strategy.writeObj i v })) =
      (encWorld w).modifyInj pos (fun s => { s with strategy := s.strategy.writeObj i v }) := by
  unfold World.modifyInj encWorld
  simp only [List.get?_map]
  cases hg : w.injs.get? pos with
  | none => rfl
  | some s =>
    simp only [Option.map_some']
    rw [List.map_set]
    rw [encInj_write i v (hwf s (List.get?_mem hg))]

/-- Key search is invariant under the strategy transport on a faithful
injector. -/
theorem encSearch (s : InjState) (k : KeyId) (hs : s.dyn10) :
    (encInj s).strategy.searchKeyId k = s.strategy.searchKeyId k := by
  obtain ⟨p, objs, hst, h1, h2, h3⟩ := hs
  rcases s with ⟨st, c⟩
  dsimp only at hst
  subst hst
  show findKeyIdx (fun o => o == some k) (ProtoInline.ofList p.providers).keyIdsList =
    findKeyIdx (fun q => q == k) p.keyIds
  rw [enc_search p.providers h1 k, ← h3]

/-- Cache reads are invariant under the strategy transport on a faithful
injector. -/
theorem encRead (s : InjState) (i : Nat) (hs : s.dyn10) :
    (encInj s).strategy.readObj i = s.strategy.readObj i := by
  obtain ⟨p, objs, hst, h1, h2, h3⟩ := hs
  rcases s with ⟨st, c⟩
  dsimp only at hst
  subst hst
  exact enc_readObj objs h2 i

/-- Slot providers are invariant under the strategy transport on a faithful
injector. -/
theorem encProvAt (s : InjState) (i : Nat) (hs : s.dyn10) :
    (encInj s).strategy.providerAtSlot i = s.strategy.providerAtSlot i := by
  obtain ⟨p, objs, hst, h1, h2, h3⟩ := hs
  rcases s with ⟨st, c⟩
  dsimp only at hst
  subst hst
  exact enc_provider p.providers h1 i

/-- Both strategies report capacity ten on a faithful injector: the inline
constant MAX_CONSTRUCTION_COUNTER and the dynamic object-array length
coincide exactly when the injector holds ten providers. -/
theorem encGetMax (s : InjState) (hs : s.dyn10) :
    (encInj s).strategy.getMaxNumberOfObjects = s.strategy.getMaxNumberOfObjects := by
  obtain ⟨p, objs, hst, h1, h2, h3⟩ := hs
  rcases s with ⟨st, c⟩
  dsimp only at hst
  subst hst
  show MAX_CONSTRUCTION_COUNTER = objs.length
  exact h2.symm

/-- Bisimulation: on a chain of ten-provider dynamic injectors every
resolution step returns the same visible result under the inline and the
dynamic strategy, and the final states correspond under the strategy
transport. The ten-provider hypothesis is what makes the capacities agree;
for other sizes the newCall capacity test differs between the strategies. -/
theorem step_enc (fuel : Nat) : ∀ (w : World) (c : Call), w.dyn10 →
    step fuel (encWorld w) c = ((step fuel w c).1, encWorld (step fuel w c).2) ∧
    (step fuel w c).2.dyn10 := by
  induction fuel with
  | zero => exact fun w c hwf => ⟨rfl, hwf⟩
  | succ fuel ih =>
    intro w c hwf
    cases c with
    | getByKey pos key skipSelf selfVis nfv =>
      simp only [step]
      rcases Bool.eq_false_or_eq_true (key == INJECTOR_KEY_ID) with hk | hk
      · simp only [hk, if_true]
        exact ⟨trivial, hwf⟩
      · simp only [hk, Bool.false_eq_true, if_false]
        rcases Bool.eq_false_or_eq_true selfVis with hv | hv
        · simp only [hv, if_true]
          exact ih w (.getByKeySelf pos key nfv) hwf
        · simp only [hv, Bool.false_eq_true, if_false]
          exact ih w (.getByKeyDefault pos key nfv skipSelf) hwf
    | getByKeySelf pos key nfv =>
      simp only [step]
      obtain ⟨h1, h2⟩ := ih w (.getObjByKeyId pos key) hwf
      rcases hres : step fuel w (.getObjByKeyId pos key) with ⟨r, w1⟩
      rw [hres] at h1 h2
      rw [h1]
      rcases r with e | v
      · exact ⟨rfl, h2⟩
      · rcases v with _ | _ | q | ⟨f, args, a⟩ | vs <;> exact ⟨rfl, h2⟩
    | getByKeyDefault pos key nfv skipSelf =>
      simp only [step]
      exact ih w (.chainWalk (if skipSelf then pos + 1 else pos) key nfv) hwf
    | chainWalk pos key nfv =>
      simp only [step]
      rw [encWorld_length]
      by_cases hp : pos < w.injs.length
      · rw [if_pos hp, if_pos hp]
        obtain ⟨h1, h2⟩ := ih w (.getObjByKeyId pos key) hwf
        rcases hres : step fuel w (.getObjByKeyId pos key) with ⟨r, w1⟩
        rw [hres] at h1 h2
        rw [h1]
        rcases r with e | v
        · exact ⟨rfl, h2⟩
        · rcases v with _ | _ | q | ⟨f, args, a⟩ | vs
          · exact ⟨rfl, h2⟩
          · exact ih w1 (.chainWalk (pos + 1) key nfv) h2
          · exact ⟨rfl, h2⟩
          · exact ⟨rfl, h2⟩
          · exact ⟨rfl, h2⟩
      · rw [if_neg hp, if_neg hp]
        exact ⟨rfl, hwf⟩
    | getObjByKeyId pos key =>
      simp only [step]
      rw [encWorld_inj?]
      cases hinj : w.inj? pos with
      | none => exact ⟨rfl, hwf⟩
      | some inj =>
        have hinj' : w.injs.get? pos = some inj := hinj
        have hs : inj.dyn10 := hwf inj (List.get?_mem hinj')
        simp only [Option.map_some']
        rw [encSearch inj key hs]
        cases hsearch : inj.strategy.searchKeyId key with
        | none => exact ⟨rfl, hwf⟩
        | some i =>
          dsimp only
          rw [encRead inj i hs]
          cases hread : inj.strategy.readObj i with
          | undef =>
            dsimp only
            rw [encProvAt inj i hs]
            cases hprov : inj.strategy.providerAtSlot i with
            | none => exact ⟨rfl, hwf⟩
            | some p =>
              dsimp only
              obtain ⟨h1, h2⟩ := ih w (.newCall pos p) hwf
              rcases hres : step fuel w (.newCall pos p) with ⟨r, w1⟩
              rw [hres] at h1 h2
              rw [h1]
              rcases r with e | v
              · exact ⟨rfl, h2⟩
              · refine ⟨?_, dyn10_write w1 pos i v h2⟩
                dsimp only
                rw [encWorld_write w1 pos i v h2]
          | null => exact ⟨rfl, hwf⟩
          | injectorSelf q => exact ⟨rfl, hwf⟩
          | obj f args a => exact ⟨rfl, hwf⟩
          | arr vs => exact ⟨rfl, hwf⟩
    | newCall pos p =>
      simp only [step]
      rw [encWorld_inj?]
      cases hinj : w.inj? pos with
      | none => exact ⟨rfl, hwf⟩
      | some inj =>
        have hinj' : w.injs.get? pos = some inj := hinj
        have hs : inj.dyn10 := hwf inj (List.get?_mem hinj')
        simp only [Option.map_some']
        rw [encInj_counter inj, encGetMax inj hs]
        by_cases hc : inj.constructionCounter > inj.strategy.getMaxNumberOfObjects
        · rw [if_pos hc, if_pos hc]
          refine ⟨?_, dyn10_bump w pos hwf⟩
          dsimp only
          rw [encWorld_bump]
        · rw [if_neg hc, if_neg hc]
          rw [← encWorld_bump]
          exact ih (w.bumpCounter pos) (.instantiateProvider pos p) (dyn10_bump w pos hwf)
    | instantiateProvider pos p =>
      simp only [step]
      rcases Bool.eq_false_or_eq_true p.multiProvider with hm | hm
      · simp only [hm, if_true]
        exact ih w (.multiLoop pos p p.resolvedFactories []) hwf
      · simp only [hm, Bool.false_eq_true, if_false]
        cases hrf : p.resolvedFactories.get? 0 with
        | none => exact ⟨rfl, hwf⟩
        | some rf => exact ih w (.instantiate pos p rf) hwf
    | multiLoop pos p rfs acc =>
      simp only [step]
      cases rfs with
      | nil => exact ⟨rfl, hwf⟩
      | cons rf rest =>
        dsimp only
        obtain ⟨h1, h2⟩ := ih w (.instantiate pos p rf) hwf
        rcases hres : step fuel w (.instantiate pos p rf) with ⟨r, w1⟩
        rw [hres] at h1 h2
        rw [h1]
        rcases r with e | v
        · exact ⟨rfl, h2⟩
        · exact ih w1 (.multiLoop pos p rest (v :: acc)) h2
    | instantiate pos p rf =>
      simp only [step]
      obtain ⟨h1, h2⟩ := ih w (.depLoop pos (rf.dependencies.take 20) []) hwf
      rcases hres : step fuel w (.depLoop pos (rf.dependencies.take 20) []) with ⟨r, w1⟩
      rw [hres] at h1 h2
      rw [h1]
      rcases r with e | v
      · exact ⟨rfl, h2⟩
      · rcases v with _ | _ | q | ⟨f, args, a⟩ | vs
        · exact ⟨rfl, h2⟩
        · exact ⟨rfl, h2⟩
        · exact ⟨rfl, h2⟩
        · exact ⟨rfl, h2⟩
        · dsimp only
          by_cases hlen : rf.dependencies.length > 20
          · rw [if_pos hlen, if_pos hlen]
            exact ⟨rfl, h2⟩
          · rw [if_neg hlen, if_neg hlen]
            exact ⟨rfl, h2⟩
    | depLoop pos deps acc =>
      simp only [step]
      cases deps with
      | nil => exact ⟨rfl, hwf⟩
      | cons d rest =>
        dsimp only
        obtain ⟨h1, h2⟩ := ih w (.getByDep pos d) hwf
        rcases hres : step fuel w (.getByDep pos d) with ⟨r, w1⟩
        rw [hres] at h1 h2
        rw [h1]
        rcases r with e | v
        · exact ⟨rfl, h2⟩
        · exact ih w1 (.depLoop pos rest (v :: acc)) h2
    | getByDep pos d =>
      simp only [step]
      exact ih w (.getByKey pos d.keyId d.skipSelf d.selfVis (if d.optional then some Val.null else none)) hwf

/-- A freshly built forced-dynamic injector over ten providers is faithful. -/
theorem forcedDyn_dyn10 (l : List ResolvedReflectiveProvider) (hl : l.length = 10) :
    (World.forcedDyn l).dyn10 := by
  intro inj hinj
  have heq : inj = ⟨.dyn (ProtoDynamic.ofList l) (List.replicate l.length Val.undef), 0⟩ := by
    simpa [World.forcedDyn] using hinj
  subst heq
  exact ⟨ProtoDynamic.ofList l, List.replicate l.length Val.undef, rfl, hl,
    by rw [List.length_replicate]; exact hl, rfl⟩

/-- The strategy transport maps the forced-dynamic injector over a
ten-provider list to the forced-inline injector over the same list. -/
theorem enc_forcedDyn (l : List ResolvedReflectiveProvider) (hl : l.length = 10) :
    encWorld (World.forcedDyn l) = World.forcedInline l := by
  unfold encWorld World.forcedDyn World.forcedInline
  simp only [List.map_cons, List.map_nil]
  rw [hl]
  rfl

/-- Both forced single-injector worlds over a ten-provider list get the same
canonical fuel budget (both capacities are ten). -/
theorem budget_forced (l : List ResolvedReflectiveProvider) (hl : l.length = 10) :
    (World.forcedInline l).fuelBudget = (World.forcedDyn l).fuelBudget := by
  unfold World.fuelBudget World.totalCap World.forcedInline World.forcedDyn
  simp only [List.length_cons, List.length_nil, List.foldr_cons, List.foldr_nil]
  simp only [InjStrategy.getMaxNumberOfObjects]
  rw [List.length_replicate, hl]
  rfl

/-- Claim C3 counterexample: the storage strategy choice is observable
through get. On the three-provider dependency cycle 1 -> 2 -> 3 -> 1, get(1)
under the inline strategy fails with CyclicDependencyError after the
construction counter passes the inline capacity 10, while under the dynamic
strategy it fails after passing the dynamic capacity 3 (the provider count):
the counter parity at the failing _new call makes the error carry key 3
inline but key 2 dynamic, so the results differ and the claimed
strategy-independence of get is refuted. -/
theorem C3_strategy_cex :
    (ReflectiveInjector.get (World.forcedInline strategyCexList) 1).1 =
        .error (.cyclicDependency 3) ∧
    (ReflectiveInjector.get (World.forcedDyn strategyCexList) 1).1 =
        .error (.cyclicDependency 2) ∧
    ¬ (∀ (l : List ResolvedReflectiveProvider) (key : KeyId),
        (ReflectiveInjector.get (World.forcedInline l) key).1 =
          (ReflectiveInjector.get (World.forcedDyn l) key).1) := by
  refine ⟨rfl, rfl, fun h => ?_⟩
  have h1 := h strategyCexList 1
  rw [show (ReflectiveInjector.get (World.forcedInline strategyCexList) 1).1 =
        Except.error (DIError.cyclicDependency 3) from rfl,
      show (ReflectiveInjector.get (World.forcedDyn strategyCexList) 1).1 =
        Except.error (DIError.cyclicDependency 2) from rfl] at h1
  injection h1 with h2
  exact absurd h2 (by decide)

/-- Claim C3 amended: for provider lists of exactly ten providers - the only
size at which the inline capacity (the constant 10) and the dynamic capacity
(the provider count) agree - get returns the same visible result under both
storage strategies and leaves corresponding states (equal up to the strategy
transport), and getProviderAtIndex agrees on every in-range index; outside
this size the capacities differ, so cyclic-failure behaviour distinguishes
the strategies (counterexample above) and inline getProviderAtIndex accepts
out-of-range indices up to 9 (claim C8). -/
theorem C3_strategy_equiv_amended (l : List ResolvedReflectiveProvider) (key : KeyId)
    (hl : l.length = 10) :
    ((ReflectiveInjector.get (World.forcedInline l) key).1 =
        (ReflectiveInjector.get (World.forcedDyn l) key).1 ∧
      (ReflectiveInjector.get (World.forcedInline l) key).2 =
        encWorld (ReflectiveInjector.get (World.forcedDyn l) key).2) ∧
    ∀ i : Int, 0 ≤ i → i < (l.length : Int) →
      ProtoStrategy.getProviderAtIndex (.inline (ProtoInline.ofList l)) i =
        ProtoStrategy.getProviderAtIndex (.dyn (ProtoDynamic.ofList l)) i := by
  constructor
  · have hwf := forcedDyn_dyn10 l hl
    have hbud := budget_forced l hl
    have henc := enc_forcedDyn l hl
    obtain ⟨h1, h2⟩ := step_enc ((World.forcedDyn l).fuelBudget) (World.forcedDyn l)
      (.getByKey 0 key false false none) hwf
    unfold ReflectiveInjector.get getFromPos
    rw [hbud, ← henc, h1]
    exact ⟨rfl, rfl⟩
  · intro i h0 hlt
    rw [hl] at hlt
    have h10 : i < 10 := by exact_mod_cast hlt
    obtain ⟨a0, a1, a2, a3, a4, a5, a6, a7, a8, a9, rfl⟩ := list_len10 hl
    interval_cases i <;> rfl

/-- Witness for claim C3 amended: the ten value providers for keys 1 to 10,
queried at key 1. -/
theorem C3_strategy_equiv_amended_witness :
    tenProviders.length = 10 ∧
    (((ReflectiveInjector.get (World.forcedInline tenProviders) 1).1 =
        (ReflectiveInjector.get (World.forcedDyn tenProviders) 1).1 ∧
      (ReflectiveInjector.get (World.forcedInline tenProviders) 1).2 =
        encWorld (ReflectiveInjector.get (World.forcedDyn tenProviders) 1).2) ∧
    ∀ i : Int, 0 ≤ i → i < (tenProviders.length : Int) →
      ProtoStrategy.getProviderAtIndex (.inline (ProtoInline.ofList tenProviders)) i =
        ProtoStrategy.getProviderAtIndex (.dyn (ProtoDynamic.ofList tenProviders)) i) :=
  ⟨rfl, C3_strategy_equiv_amended tenProviders 1 rfl⟩


end CoreDI
